import Mathlib

/-!
GomeOfLife: the simulation core of `main.go`

A shallow embedding of the `Game` struct of `main.go` and of its methods
`countAliveNeighbors`, `step`, `toggleCell`, `interactAtPixel` and `Layout`.

Modelling conventions.

* A Go `int` is a Lean `Int`; every arithmetic result the source computes is
  passed through `wrapInt`, the two's-complement reduction to 64 bits (the
  width of `int` on 64-bit targets).  Values that come from the program
  (fields, arguments) are assumed to lie in the `int` range, `IsInt64`.
* A Go `[][]int` is a `List (List Int)`: the outer list holds the rows, so the
  cell `grid[y][x]` is element `x` of row `y`.  The two buffers `grid` and
  `nextGrid` are separate values, as `newGame` allocates them (no two rows
  share storage).
* An index expression that would make the Go runtime stop with an
  index-out-of-range error, and an integer division by zero, evaluate to
  `none`; every method therefore returns an `Option`.
* The field `aliveImg` is a handle of the drawing toolkit, used by `Draw`
  only, and is left out.
-/

namespace GomeOfLife

/-- Constant `ALIVE` of `main.go`. -/
def ALIVE : Int := 1

/-- Constant `DEAD` of `main.go`. -/
def DEAD : Int := 0

/-- Constant `headerMargin` of `main.go`. -/
def headerMargin : Int := 40

/-- Two's-complement reduction of a mathematical integer to a 64-bit Go `int`. -/
def wrapInt (v : Int) : Int := (v + 2 ^ 63) % 2 ^ 64 - 2 ^ 63

/-- The values a 64-bit Go `int` can hold. -/
def IsInt64 (v : Int) : Prop := -(2 ^ 63) ≤ v ∧ v < 2 ^ 63

instance (v : Int) : Decidable (IsInt64 v) := by
  unfold IsInt64; infer_instance

/-- Go slice read `xs[i]`: `none` stands for the index-out-of-range stop. -/
def index {α : Type} (xs : List α) (i : Int) : Option α :=
  if i < 0 then none else xs[i.toNat]?

/-- Go slice write `xs[i] = v`: `none` stands for the index-out-of-range stop. -/
def assign {α : Type} (xs : List α) (i : Int) (v : α) : Option (List α) :=
  if 0 ≤ i ∧ i < (xs.length : Int) then some (xs.set i.toNat v) else none

/-- Read of `grid[y][x]`: the row is fetched first, then the cell. -/
def readCell (grid : List (List Int)) (x y : Int) : Option Int :=
  (index grid y).bind fun row => index row x

/-- Write `grid[y][x] = v`: the row is fetched first, then the cell is stored. -/
def writeCell (grid : List (List Int)) (x y : Int) (v : Int) : Option (List (List Int)) :=
  (index grid y).bind fun row => (assign row x v).bind fun row2 => assign grid y row2

/-- The struct `Game` of `main.go`, without the image handle. -/
structure Game where
  N : Int
  cellSize : Int
  margin : Int
  grid : List (List Int)
  nextGrid : List (List Int)
  generation : Int
  deriving DecidableEq, Repr

namespace Game

/-- Body of the inner loop of `countAliveNeighbors` for one offset `(dx, dy)`:
the two `continue` guards, then the test of `g.grid[ny][nx]`. -/
def neighborVisit (g : Game) (x y dx dy count : Int) : Option Int :=
  let nx := wrapInt (x + dx)
  let ny := wrapInt (y + dy)
  if nx < 0 ∨ ny < 0 ∨ nx ≥ g.N ∨ ny ≥ g.N then some count
  else if nx = x ∧ ny = y then some count
  else (readCell g.grid nx ny).bind fun c =>
    if c = ALIVE then some (count + 1) else some count

/-- Method `countAliveNeighbors`: `dy` runs over -1, 0, 1 in the outer loop and
`dx` over -1, 0, 1 in the inner one. -/
def countAliveNeighbors (g : Game) (x y : Int) : Option Int :=
  [-1, 0, 1].foldlM
    (fun count dy => [-1, 0, 1].foldlM (fun count dx => g.neighborVisit x y dx dy count) count) 0

/-- Body of the inner loop of `step` for the cell `(x, y)`: the count, the read
of `g.grid[y][x]`, then the `switch`, which writes `g.nextGrid[y][x]` in the
cases `ALIVE` and `DEAD` and does nothing for any other value. -/
def stepCell (g : Game) (x y : Int) : Option Game :=
  (g.countAliveNeighbors x y).bind fun aliveNeighbors =>
  (readCell g.grid x y).bind fun cell =>
    if cell = ALIVE then
      if aliveNeighbors < 2 ∨ aliveNeighbors > 3 then
        (writeCell g.nextGrid x y DEAD).map fun ng => { g with nextGrid := ng }
      else
        (writeCell g.nextGrid x y ALIVE).map fun ng => { g with nextGrid := ng }
    else if cell = DEAD then
      if aliveNeighbors = 3 then
        (writeCell g.nextGrid x y ALIVE).map fun ng => { g with nextGrid := ng }
      else
        (writeCell g.nextGrid x y DEAD).map fun ng => { g with nextGrid := ng }
    else some g

/-- Inner loop of `step`: `x` runs from 0 while `x < g.N`. -/
def stepRow (g : Game) (y : Int) : Option Game :=
  (List.range g.N.toNat).foldlM (fun (s : Game) (x : Nat) => s.stepCell (x : Int) y) g

/-- Outer loop of `step`: `y` runs from 0 while `y < g.N`. -/
def stepScan (g : Game) : Option Game :=
  (List.range g.N.toNat).foldlM (fun (s : Game) (y : Nat) => s.stepRow (y : Int)) g

/-- Method `step`: the scan, the swap of the two buffers, `generation++`. -/
def step (g : Game) : Option Game :=
  g.stepScan.map fun s =>
    { s with grid := s.nextGrid, nextGrid := s.grid, generation := wrapInt (s.generation + 1) }

/-- Method `toggleCell`. -/
def toggleCell (g : Game) (x y : Int) : Option Game :=
  if x < 0 ∨ y < 0 ∨ x ≥ g.N ∨ y ≥ g.N then some g
  else (readCell g.grid x y).bind fun c =>
    if c = ALIVE then (writeCell g.grid x y DEAD).map fun ng => { g with grid := ng }
    else (writeCell g.grid x y ALIVE).map fun ng => { g with grid := ng }

/-- Go integer division `a / b`: stops on a zero divisor, truncates toward
zero, and wraps in the one overflowing case. -/
def goDiv (a b : Int) : Option Int :=
  if b = 0 then none else some (wrapInt (a.tdiv b))

/-- Method `interactAtPixel`. -/
def interactAtPixel (g : Game) (px py : Int) : Option Game :=
  if py < g.margin then some g
  else (goDiv px g.cellSize).bind fun gridX =>
    (goDiv (wrapInt (py - g.margin)) g.cellSize).bind fun gridY =>
      if gridX < 0 ∨ gridY < 0 ∨ gridX ≥ g.N ∨ gridY ≥ g.N then some g
      else [-1, 0, 1].foldlM
        (fun s dy => [-1, 0, 1].foldlM
          (fun s dx => s.toggleCell (wrapInt (gridX + dx)) (wrapInt (gridY + dy))) s) g

/-- Method `Layout`; the two arguments are not used. -/
def Layout (g : Game) (_outsideWidth _outsideHeight : Int) : Int × Int :=
  (wrapInt (g.N * g.cellSize), wrapInt (wrapInt (g.N * g.cellSize) + g.margin))

/-- Repeated `step`. -/
def steps : Nat → Game → Option Game
  | 0, g => some g
  | k + 1, g => g.step.bind (steps k)

end Game

/-! ## Shapes and contents of a grid -/

/-- The grid has exactly `n` rows of exactly `n` cells. -/
def IsSquare (n : Int) (grid : List (List Int)) : Prop :=
  (grid.length : Int) = n ∧ ∀ row ∈ grid, (row.length : Int) = n

instance (n : Int) (grid : List (List Int)) : Decidable (IsSquare n grid) := by
  unfold IsSquare; infer_instance

/-- Every cell of the grid is `ALIVE` or `DEAD`. -/
def IsBinary (grid : List (List Int)) : Prop :=
  ∀ row ∈ grid, ∀ c ∈ row, c = ALIVE ∨ c = DEAD

instance (grid : List (List Int)) : Decidable (IsBinary grid) := by
  unfold IsBinary; infer_instance

/-- The cell `(x, y)` lies in the `n` x `n` grid. -/
def InGrid (n x y : Int) : Prop := 0 ≤ x ∧ x < n ∧ 0 ≤ y ∧ y < n

instance (n x y : Int) : Decidable (InGrid n x y) := by
  unfold InGrid; infer_instance

/-! ## The neighbour count in the words of the specification -/

/-- The pairs `(dx, dy)` of `{-1, 0, 1}²` other than `(0, 0)`. -/
def neighbourOffsets : List (Int × Int) :=
  (([-1, 0, 1] : List Int).product [-1, 0, 1]).filter fun d => decide (d ≠ (0, 0))

/-- The number of offsets `(dx, dy)` whose cell `(x + dx, y + dy)` lies in the
`n` x `n` grid and is `ALIVE`; the sums are mathematical, without wrap-around. -/
def aliveNeighbourCount (n : Int) (grid : List (List Int)) (x y : Int) : Nat :=
  neighbourOffsets.countP fun d =>
    decide (InGrid n (x + d.1) (y + d.2) ∧ readCell grid (x + d.1) (y + d.2) = some ALIVE)

/-- The transition rule in the words of the specification: a live cell survives
with 2 or 3 live neighbours, a dead cell is born with exactly 3. -/
def lifeRule (cell : Int) (aliveNeighbors : Nat) : Int :=
  if (cell = ALIVE ∧ (aliveNeighbors = 2 ∨ aliveNeighbors = 3)) ∨
      (cell = DEAD ∧ aliveNeighbors = 3) then ALIVE else DEAD

/-! ## Auxiliary functions of the proofs -/

/-- One when the cell `(x, y)` lies in the grid and is `ALIVE`, zero otherwise. -/
def aliveIndicator (n : Int) (grid : List (List Int)) (x y : Int) : Nat :=
  if InGrid n x y ∧ readCell grid x y = some ALIVE then 1 else 0

/-- The value the `switch` of `step` leaves in `nextGrid[y][x]`: `old` is what
the scratch cell held before. -/
def switchResult (cell aliveNeighbors old : Int) : Int :=
  if cell = ALIVE then (if aliveNeighbors < 2 ∨ aliveNeighbors > 3 then DEAD else ALIVE)
  else if cell = DEAD then (if aliveNeighbors = 3 then ALIVE else DEAD)
  else old

/-- The content of the scratch cell `(x, y)` once the scan has visited it,
computed from the state `g` the scan started in. -/
def nextCellValue (g : Game) (x y : Int) : Option Int :=
  (readCell g.grid x y).bind fun c =>
    (readCell g.nextGrid x y).map fun old =>
      switchResult c (aliveNeighbourCount g.N g.grid x y : Int) old

/-- The count of `aliveNeighbourCount` on a grid whose live cells are those
satisfying `P`. -/
def patternCount (n : Int) (P : Int → Int → Prop) [∀ i j, Decidable (P i j)] (x y : Int) : Nat :=
  (if InGrid n (x + -1) (y + -1) ∧ P (x + -1) (y + -1) then 1 else 0) +
  (if InGrid n (x + 0) (y + -1) ∧ P (x + 0) (y + -1) then 1 else 0) +
  (if InGrid n (x + 1) (y + -1) ∧ P (x + 1) (y + -1) then 1 else 0) +
  (if InGrid n (x + -1) (y + 0) ∧ P (x + -1) (y + 0) then 1 else 0) +
  (if InGrid n (x + 1) (y + 0) ∧ P (x + 1) (y + 0) then 1 else 0) +
  (if InGrid n (x + -1) (y + 1) ∧ P (x + -1) (y + 1) then 1 else 0) +
  (if InGrid n (x + 0) (y + 1) ∧ P (x + 0) (y + 1) then 1 else 0) +
  (if InGrid n (x + 1) (y + 1) ∧ P (x + 1) (y + 1) then 1 else 0)

/-- The value `toggleCell` stores over a cell that holds `c`. -/
def toggleValue (c : Int) : Int := if c = ALIVE then DEAD else ALIVE

/-- The nine pairs `(nx, ny)` the two loops of `interactAtPixel` pass to
`toggleCell` for the resolved cell `(gridX, gridY)`, in the order of the calls. -/
def toggleTargets (gridX gridY : Int) : List (Int × Int) :=
  [(wrapInt (gridX + -1), wrapInt (gridY + -1)), (wrapInt (gridX + 0), wrapInt (gridY + -1)),
    (wrapInt (gridX + 1), wrapInt (gridY + -1)), (wrapInt (gridX + -1), wrapInt (gridY + 0)),
    (wrapInt (gridX + 0), wrapInt (gridY + 0)), (wrapInt (gridX + 1), wrapInt (gridY + 0)),
    (wrapInt (gridX + -1), wrapInt (gridY + 1)), (wrapInt (gridX + 0), wrapInt (gridY + 1)),
    (wrapInt (gridX + 1), wrapInt (gridY + 1))]

/-- A sequence of calls of `toggleCell`, one for each pair of the list. -/
def toggleAll (g : Game) (cells : List (Int × Int)) : Option Game :=
  cells.foldlM (fun (s : Game) (p : Int × Int) => s.toggleCell p.1 p.2) g

/-- How often the cell `(i, j)` of the `n` x `n` grid occurs in a list of pairs. -/
def hitCount (n : Int) (cells : List (Int × Int)) (i j : Int) : Nat :=
  cells.countP fun p => decide ((i = p.1 ∧ j = p.2) ∧ InGrid n p.1 p.2)

/-- The first part of `interactAtPixel`, up to its second `return`: the outer
`none` is the stop on a zero `cellSize`, `some none` is one of the two early
returns, and `some (some (gridX, gridY))` is the cell the pixel resolves to. -/
def resolveCell (g : Game) (px py : Int) : Option (Option (Int × Int)) :=
  if py < g.margin then some none
  else (Game.goDiv px g.cellSize).bind fun gridX =>
    (Game.goDiv (wrapInt (py - g.margin)) g.cellSize).bind fun gridY =>
      if gridX < 0 ∨ gridY < 0 ∨ gridX ≥ g.N ∨ gridY ≥ g.N then some none
      else some (some (gridX, gridY))

/-- The integer pair `Draw` converts to `float64` to place the image of the
cell `(x, y)`: `x*g.cellSize` and `y*g.cellSize+g.margin`. -/
def drawOrigin (g : Game) (x y : Int) : Int × Int :=
  (wrapInt (x * g.cellSize), wrapInt (wrapInt (y * g.cellSize) + g.margin))

/-- One call of a method that changes the state. -/
inductive Call where
  | step : Call
  | toggleCell (x y : Int) : Call
  | interactAtPixel (px py : Int) : Call

/-- The state after one call. -/
def Game.call (g : Game) : Call → Option Game
  | Call.step => g.step
  | Call.toggleCell x y => g.toggleCell x y
  | Call.interactAtPixel px py => g.interactAtPixel px py

/-- The state after a sequence of calls, the first of the list first. -/
def Game.calls (g : Game) (cs : List Call) : Option Game :=
  cs.foldlM (fun (s : Game) (c : Call) => s.call c) g

/-! ## Test states -/

/-- Test state: the blinker state with its centre cell cleared. -/
def blinker3Hole : Game :=
  { N := 3, cellSize := 12, margin := headerMargin,
    grid := [[0, 0, 0], [1, 0, 1], [0, 0, 0]],
    nextGrid := [[0, 0, 0], [0, 0, 0], [0, 0, 0]],
    generation := 0 }

/-- Test state: a 1 x 1 grid whose generation counter holds the largest `int`. -/
def lastGeneration : Game :=
  { N := 1, cellSize := 12, margin := headerMargin,
    grid := [[0]], nextGrid := [[0]], generation := 2 ^ 63 - 1 }

/-- Test state: the blinker state with other scratch contents and another
generation. -/
def blinker3Other : Game :=
  { N := 3, cellSize := 12, margin := headerMargin,
    grid := [[0, 0, 0], [1, 1, 1], [0, 0, 0]],
    nextGrid := [[1, 1, 1], [1, 0, 1], [1, 1, 1]],
    generation := 7 }

/-- Test state: a 3 x 3 grid of dead cells over a scratch grid of live cells. -/
def dead3 : Game :=
  { N := 3, cellSize := 12, margin := headerMargin,
    grid := [[0, 0, 0], [0, 0, 0], [0, 0, 0]],
    nextGrid := [[1, 1, 1], [1, 1, 1], [1, 1, 1]],
    generation := 0 }

/-- Test state: a 3 x 3 grid with a block in the corner `(0, 0)`. -/
def block3 : Game :=
  { N := 3, cellSize := 12, margin := headerMargin,
    grid := [[1, 1, 0], [1, 1, 0], [0, 0, 0]],
    nextGrid := [[0, 0, 0], [0, 0, 0], [0, 0, 0]],
    generation := 0 }

/-- Test state: a 3 x 3 grid whose only live cell is the centre. -/
def lonely3 : Game :=
  { N := 3, cellSize := 12, margin := headerMargin,
    grid := [[0, 0, 0], [0, 1, 0], [0, 0, 0]],
    nextGrid := [[0, 0, 0], [0, 0, 0], [0, 0, 0]],
    generation := 0 }

/-- Test state: a 3 x 3 grid holding a horizontal blinker. -/
def blinker3 : Game :=
  { N := 3, cellSize := 12, margin := headerMargin,
    grid := [[0, 0, 0], [1, 1, 1], [0, 0, 0]],
    nextGrid := [[0, 0, 0], [0, 0, 0], [0, 0, 0]],
    generation := 0 }

/-! ## Slices and grids -/

theorem index_eq_some_of_lt {α : Type} (xs : List α) (i : Int) (h0 : 0 ≤ i)
    (h1 : i < (xs.length : Int)) : ∃ v, index xs i = some v ∧ v ∈ xs := by
  have hlt : i.toNat < xs.length := by omega
  refine ⟨xs[i.toNat], ?_, List.getElem_mem hlt⟩
  unfold index
  rw [if_neg (by omega), List.getElem?_eq_getElem hlt]

theorem index_mem {α : Type} (xs : List α) (i : Int) (v : α) (h : index xs i = some v) :
    v ∈ xs := by
  unfold index at h
  split at h
  · cases h
  · exact List.mem_iff_getElem?.mpr ⟨_, h⟩

theorem index_assign {α : Type} (xs : List α) (i j : Int) (v : α) (h0 : 0 ≤ i)
    (h1 : i < (xs.length : Int)) :
    index (xs.set i.toNat v) j = if j = i then some v else index xs j := by
  unfold index
  by_cases hj : j < 0
  · rw [if_pos hj, if_pos hj, if_neg (by omega)]
  · rw [if_neg hj, if_neg hj, List.getElem?_set]
    by_cases hji : j = i
    · subst hji
      rw [if_pos rfl, if_pos rfl, if_pos (by omega)]
    · rw [if_neg (by omega), if_neg hji]

theorem readCell_isSome (n : Int) (grid : List (List Int)) (x y : Int)
    (hs : IsSquare n grid) (hin : InGrid n x y) : ∃ c, readCell grid x y = some c := by
  obtain ⟨hlen, hrows⟩ := hs
  obtain ⟨hx0, hx1, hy0, hy1⟩ := hin
  obtain ⟨row, hrow, hmem⟩ := index_eq_some_of_lt grid y hy0 (by omega)
  have hr := hrows row hmem
  obtain ⟨c, hc, _⟩ := index_eq_some_of_lt row x hx0 (by omega)
  exact ⟨c, by simp [readCell, hrow, hc]⟩

theorem readCell_binary (grid : List (List Int)) (x y c : Int) (hb : IsBinary grid)
    (h : readCell grid x y = some c) : c = ALIVE ∨ c = DEAD := by
  unfold readCell at h
  cases hrow : index grid y with
  | none => simp [hrow] at h
  | some row =>
    simp only [hrow, Option.bind_some] at h
    exact hb row (index_mem _ _ _ hrow) c (index_mem _ _ _ h)

/-- A store into a cell of a square grid succeeds, keeps the shape, and changes
the stored cell only. -/
theorem writeCell_spec (n : Int) (grid : List (List Int)) (x y v : Int)
    (hs : IsSquare n grid) (hin : InGrid n x y) :
    ∃ grid2, writeCell grid x y v = some grid2 ∧ IsSquare n grid2 ∧
      ∀ i j, readCell grid2 i j = if i = x ∧ j = y then some v else readCell grid i j := by
  obtain ⟨hlen, hrows⟩ := hs
  obtain ⟨hx0, hx1, hy0, hy1⟩ := hin
  obtain ⟨row, hrow, hmem⟩ := index_eq_some_of_lt grid y hy0 (by omega)
  have hr := hrows row hmem
  refine ⟨grid.set y.toNat (row.set x.toNat v), ?_, ⟨?_, ?_⟩, ?_⟩
  · have hx : 0 ≤ x ∧ x < (row.length : Int) := ⟨hx0, by omega⟩
    have hy : 0 ≤ y ∧ y < (grid.length : Int) := ⟨hy0, by omega⟩
    simp [writeCell, hrow, assign, hx, hy]
  · simpa using hlen
  · intro r hrmem
    rcases List.mem_or_eq_of_mem_set hrmem with h | h
    · exact hrows r h
    · subst h; simpa using hr
  · intro i j
    unfold readCell
    rw [index_assign grid y j _ hy0 (by omega)]
    by_cases hj : j = y
    · subst hj
      simp only [if_true, Option.bind_some, and_true, hrow]
      exact index_assign row x i v hx0 (by omega)
    · simp [hj]

/-- Two square grids of the same size with the same cells are equal. -/
theorem grid_ext (n : Int) (a b : List (List Int)) (ha : IsSquare n a) (hb : IsSquare n b)
    (h : ∀ x y, InGrid n x y → readCell a x y = readCell b x y) : a = b := by
  obtain ⟨halen, harows⟩ := ha
  obtain ⟨hblen, hbrows⟩ := hb
  apply List.ext_getElem (by omega)
  intro j hja hjb
  have hra := harows _ (List.getElem_mem hja)
  have hrb := hbrows _ (List.getElem_mem hjb)
  apply List.ext_getElem (by omega)
  intro i hia hib
  have hcell := h (i : Int) (j : Int) ⟨by omega, by omega, by omega, by omega⟩
  have hj0 : ¬ ((j : Int) < 0) := by omega
  have hi0 : ¬ ((i : Int) < 0) := by omega
  simpa [readCell, index, hj0, hi0, List.getElem?_eq_getElem hja, List.getElem?_eq_getElem hjb,
    List.getElem?_eq_getElem hia, List.getElem?_eq_getElem hib] using hcell

/-! ## The neighbour count -/

theorem aliveIndicator_le_one (n : Int) (grid : List (List Int)) (x y : Int) :
    aliveIndicator n grid x y ≤ 1 := by
  unfold aliveIndicator; split <;> omega

theorem neighbourOffsets_eq : neighbourOffsets =
    [(-1, -1), (-1, 0), (-1, 1), (0, -1), (0, 1), (1, -1), (1, 0), (1, 1)] := by
  decide

theorem aliveNeighbourCount_eq (n : Int) (grid : List (List Int)) (x y : Int) :
    aliveNeighbourCount n grid x y =
      aliveIndicator n grid (x + -1) (y + -1) + aliveIndicator n grid (x + 0) (y + -1) +
      aliveIndicator n grid (x + 1) (y + -1) + aliveIndicator n grid (x + -1) (y + 0) +
      aliveIndicator n grid (x + 1) (y + 0) + aliveIndicator n grid (x + -1) (y + 1) +
      aliveIndicator n grid (x + 0) (y + 1) + aliveIndicator n grid (x + 1) (y + 1) := by
  unfold aliveNeighbourCount
  rw [neighbourOffsets_eq]
  simp only [List.countP_cons, List.countP_nil, decide_eq_true_eq, aliveIndicator]
  omega

/-- One visit of the inner loop adds the indicator of the visited cell, and
nothing for the offset `(0, 0)`. -/
theorem neighborVisit_eq (g : Game) (x y dx dy count : Int) (hN : IsInt64 g.N)
    (hs : IsSquare g.N g.grid) (hx : IsInt64 x) (hy : IsInt64 y)
    (hdx : dx = -1 ∨ dx = 0 ∨ dx = 1) (hdy : dy = -1 ∨ dy = 0 ∨ dy = 1) :
    g.neighborVisit x y dx dy count =
      some (count + if dx = 0 ∧ dy = 0 then 0
        else (aliveIndicator g.N g.grid (x + dx) (y + dy) : Int)) := by
  obtain ⟨hN0, hN1⟩ := hN
  obtain ⟨hx0, hx1⟩ := hx
  obtain ⟨hy0, hy1⟩ := hy
  have hlen : 0 ≤ g.N := by have := hs.1; omega
  unfold Game.neighborVisit aliveIndicator
  by_cases hin : InGrid g.N (x + dx) (y + dy)
  · obtain ⟨c, hc⟩ := readCell_isSome g.N g.grid _ _ hs hin
    obtain ⟨h1, h2, h3, h4⟩ := hin
    have hwx : wrapInt (x + dx) = x + dx := by unfold wrapInt; omega
    have hwy : wrapInt (y + dy) = y + dy := by unfold wrapInt; omega
    have hguard : ¬ (x + dx < 0 ∨ y + dy < 0 ∨ x + dx ≥ g.N ∨ y + dy ≥ g.N) := by omega
    have hself : (x + dx = x ∧ y + dy = y) ↔ (dx = 0 ∧ dy = 0) := by omega
    simp only [hwx, hwy, if_neg hguard, hself, hc, Option.some_bind, InGrid, h1, h2, h3, h4,
      true_and, and_self]
    by_cases h0 : dx = 0 ∧ dy = 0
    · simp [h0]
    · by_cases hca : c = ALIVE
      · simp [h0, hca]
      · simp [h0, hca]
  · have hguard : wrapInt (x + dx) < 0 ∨ wrapInt (y + dy) < 0 ∨ wrapInt (x + dx) ≥ g.N ∨
        wrapInt (y + dy) ≥ g.N := by
      unfold InGrid at hin
      unfold wrapInt
      omega
    simp only [if_pos hguard, hin, false_and, if_false]
    split <;> simp

/-- C2 helper: the source's count is the specification's count, for every pair
of Go integers. -/
theorem countAliveNeighbors_eq (g : Game) (x y : Int) (hN : IsInt64 g.N)
    (hs : IsSquare g.N g.grid) (hx : IsInt64 x) (hy : IsInt64 y) :
    g.countAliveNeighbors x y = some (aliveNeighbourCount g.N g.grid x y : Int) := by
  unfold Game.countAliveNeighbors
  simp only [List.foldlM_cons, List.foldlM_nil, Option.pure_def, Option.bind_eq_bind]
  simp only [neighborVisit_eq g x y _ _ _ hN hs hx hy (Or.inl rfl) (Or.inl rfl),
    neighborVisit_eq g x y _ _ _ hN hs hx hy (Or.inl rfl) (Or.inr (Or.inl rfl)),
    neighborVisit_eq g x y _ _ _ hN hs hx hy (Or.inl rfl) (Or.inr (Or.inr rfl)),
    neighborVisit_eq g x y _ _ _ hN hs hx hy (Or.inr (Or.inl rfl)) (Or.inl rfl),
    neighborVisit_eq g x y _ _ _ hN hs hx hy (Or.inr (Or.inl rfl)) (Or.inr (Or.inl rfl)),
    neighborVisit_eq g x y _ _ _ hN hs hx hy (Or.inr (Or.inl rfl)) (Or.inr (Or.inr rfl)),
    neighborVisit_eq g x y _ _ _ hN hs hx hy (Or.inr (Or.inr rfl)) (Or.inl rfl),
    neighborVisit_eq g x y _ _ _ hN hs hx hy (Or.inr (Or.inr rfl)) (Or.inr (Or.inl rfl)),
    neighborVisit_eq g x y _ _ _ hN hs hx hy (Or.inr (Or.inr rfl)) (Or.inr (Or.inr rfl)),
    Option.some_bind]
  rw [aliveNeighbourCount_eq]
  simp only [Option.some.injEq]
  norm_num

/-! ## The scan of `step` -/

/-- A counted loop over `0, 1, ..., n - 1` whose body never stops keeps an
invariant indexed by the number of completed iterations. -/
theorem foldlM_range_invariant {σ : Type} (f : σ → Nat → Option σ) (P : Nat → σ → Prop)
    (n : Nat) (s0 : σ) (h0 : P 0 s0)
    (hstep : ∀ k s, k < n → P k s → ∃ s2, f s k = some s2 ∧ P (k + 1) s2) :
    ∃ s2, (List.range n).foldlM f s0 = some s2 ∧ P n s2 := by
  induction n with
  | zero => exact ⟨s0, by simp, h0⟩
  | succ n ih =>
    obtain ⟨s1, hs1, hp1⟩ := ih (fun k s hk => hstep k s (by omega))
    obtain ⟨s2, hs2, hp2⟩ := hstep n s1 (by omega) hp1
    refine ⟨s2, ?_, hp2⟩
    rw [List.range_succ, List.foldlM_append, hs1]
    simp [hs2]

/-- One visit of the scan: only the scratch cell `(x, y)` changes. -/
theorem stepCell_spec (s : Game) (x y : Int) (hN : IsInt64 s.N) (hg : IsSquare s.N s.grid)
    (hn : IsSquare s.N s.nextGrid) (hin : InGrid s.N x y) :
    ∃ ng, s.stepCell x y = some { s with nextGrid := ng } ∧ IsSquare s.N ng ∧
      ∀ i j, readCell ng i j =
        if i = x ∧ j = y then nextCellValue s x y else readCell s.nextGrid i j := by
  have hx : IsInt64 x := by
    unfold IsInt64 at *; unfold InGrid at hin; omega
  have hy : IsInt64 y := by
    unfold IsInt64 at *; unfold InGrid at hin; omega
  obtain ⟨c, hc⟩ := readCell_isSome s.N s.grid x y hg hin
  obtain ⟨old, hold⟩ := readCell_isSome s.N s.nextGrid x y hn hin
  have key : ∀ v, ∃ ng, (writeCell s.nextGrid x y v).map (fun ng => { s with nextGrid := ng })
      = some { s with nextGrid := ng } ∧ IsSquare s.N ng ∧
      ∀ i j, readCell ng i j = if i = x ∧ j = y then some v else readCell s.nextGrid i j := by
    intro v
    obtain ⟨ng, h1, h2, h3⟩ := writeCell_spec s.N s.nextGrid x y v hn hin
    exact ⟨ng, by simp [h1], h2, h3⟩
  unfold Game.stepCell nextCellValue
  rw [countAliveNeighbors_eq s x y hN hg hx hy]
  simp only [Option.some_bind, hc, hold, Option.map_some']
  unfold switchResult
  by_cases h1 : c = ALIVE
  · simp only [if_pos h1]
    split
    · exact key DEAD
    · exact key ALIVE
  · simp only [if_neg h1]
    by_cases h2 : c = DEAD
    · simp only [if_pos h2]
      split
      · exact key ALIVE
      · exact key DEAD
    · simp only [if_neg h2]
      refine ⟨s.nextGrid, rfl, hn, ?_⟩
      intro i j
      split
      · rename_i h; rw [h.1, h.2, hold]
      · rfl

/-- The inner loop of `step` on row `y`: the scratch row `y` is filled, the
rest of the state is as before. -/
theorem stepRow_spec (g : Game) (ng1 : List (List Int)) (y : Int) (hN : IsInt64 g.N)
    (hg : IsSquare g.N g.grid) (hn : IsSquare g.N ng1) (hy0 : 0 ≤ y) (hy1 : y < g.N)
    (hrow : ∀ i, readCell ng1 i y = readCell g.nextGrid i y) :
    ∃ ng, Game.stepRow { g with nextGrid := ng1 } y = some { g with nextGrid := ng } ∧
      IsSquare g.N ng ∧
      ∀ i j, readCell ng i j =
        if j = y ∧ 0 ≤ i ∧ i < g.N then nextCellValue g i j else readCell ng1 i j := by
  have h := foldlM_range_invariant (fun (s : Game) (x : Nat) => s.stepCell (x : Int) y)
    (fun k s => ∃ ng, s = { g with nextGrid := ng } ∧ IsSquare g.N ng ∧
      ∀ i j, readCell ng i j =
        if j = y ∧ 0 ≤ i ∧ i < (k : Int) then nextCellValue g i j else readCell ng1 i j)
    g.N.toNat { g with nextGrid := ng1 }
    ⟨ng1, rfl, hn, fun i j => by rw [if_neg (by omega)]⟩
    (by
      rintro k s hk ⟨ng, rfl, hsq, hcells⟩
      have hin : InGrid g.N (k : Int) y := ⟨by omega, by omega, hy0, hy1⟩
      obtain ⟨ng2, h1, h2, h3⟩ := stepCell_spec { g with nextGrid := ng } (k : Int) y hN hg hsq hin
      refine ⟨_, h1, ng2, rfl, h2, ?_⟩
      intro i j
      rw [h3 i j]
      have hval : nextCellValue { g with nextGrid := ng } (k : Int) y =
          nextCellValue g (k : Int) y := by
        unfold nextCellValue
        simp only
        rw [hcells (k : Int) y, if_neg (by omega), hrow]
      by_cases hc : i = (k : Int) ∧ j = y
      · obtain ⟨rfl, rfl⟩ := hc
        rw [if_pos ⟨rfl, rfl⟩, if_pos ⟨rfl, by omega, by omega⟩, hval]
      · rw [if_neg hc, hcells i j]
        by_cases hj : j = y ∧ 0 ≤ i ∧ i < (k : Int)
        · rw [if_pos hj, if_pos ⟨hj.1, hj.2.1, by omega⟩]
        · rw [if_neg hj, if_neg (by omega)])
  obtain ⟨s2, hs2, ng, rfl, hsq, hcells⟩ := h
  refine ⟨ng, hs2, hsq, ?_⟩
  intro i j
  rw [hcells i j]
  have hcast : ((g.N.toNat : Nat) : Int) = g.N := by omega
  rw [hcast]

/-- The two loops of `step`: the scan returns, leaves everything but the
scratch grid as it was, and fills every scratch cell with `nextCellValue`. -/
theorem stepScan_spec (g : Game) (hN : IsInt64 g.N) (hg : IsSquare g.N g.grid)
    (hn : IsSquare g.N g.nextGrid) :
    ∃ ng, g.stepScan = some { g with nextGrid := ng } ∧ IsSquare g.N ng ∧
      ∀ i j, InGrid g.N i j → readCell ng i j = nextCellValue g i j := by
  have h := foldlM_range_invariant (fun (s : Game) (y : Nat) => s.stepRow (y : Int))
    (fun k s => ∃ ng, s = { g with nextGrid := ng } ∧ IsSquare g.N ng ∧
      ∀ i j, readCell ng i j =
        if 0 ≤ j ∧ j < (k : Int) ∧ 0 ≤ i ∧ i < g.N then nextCellValue g i j
        else readCell g.nextGrid i j)
    g.N.toNat g
    ⟨g.nextGrid, rfl, hn, fun i j => by rw [if_neg (by omega)]⟩
    (by
      rintro k s hk ⟨ng, rfl, hsq, hcells⟩
      obtain ⟨ng2, h1, h2, h3⟩ := stepRow_spec g ng (k : Int) hN hg hsq (by omega) (by omega)
        (fun i => by rw [hcells i (k : Int), if_neg (by omega)])
      refine ⟨_, h1, ng2, rfl, h2, ?_⟩
      intro i j
      rw [h3 i j]
      by_cases hc : j = (k : Int) ∧ 0 ≤ i ∧ i < g.N
      · rw [if_pos hc, if_pos ⟨by omega, by omega, hc.2.1, hc.2.2⟩]
      · rw [if_neg hc, hcells i j]
        by_cases hj : 0 ≤ j ∧ j < (k : Int) ∧ 0 ≤ i ∧ i < g.N
        · rw [if_pos hj, if_pos ⟨hj.1, by omega, hj.2.2.1, hj.2.2.2⟩]
        · rw [if_neg hj, if_neg (by omega)])
  obtain ⟨s2, hs2, ng, rfl, hsq, hcells⟩ := h
  refine ⟨ng, hs2, hsq, ?_⟩
  intro i j hin
  obtain ⟨h1, h2, h3, h4⟩ := hin
  rw [hcells i j, if_pos ⟨h3, by omega, h1, h2⟩]

/-- Method `step` on a state with square buffers: it returns, the new current
grid holds `nextCellValue` in every cell, the new scratch grid is the old
current grid, and only the generation counter changes besides. -/
theorem step_spec (g : Game) (hN : IsInt64 g.N) (hg : IsSquare g.N g.grid)
    (hn : IsSquare g.N g.nextGrid) :
    ∃ ng,
      g.step =
        some { g with grid := ng, nextGrid := g.grid, generation := wrapInt (g.generation + 1) } ∧
      IsSquare g.N ng ∧ ∀ i j, InGrid g.N i j → readCell ng i j = nextCellValue g i j := by
  obtain ⟨ng, h1, h2, h3⟩ := stepScan_spec g hN hg hn
  exact ⟨ng, by simp [Game.step, h1], h2, h3⟩

/-- On a cell that is `ALIVE` or `DEAD` the `switch` computes the rule of the
specification, whatever the scratch cell held. -/
theorem switchResult_binary (c old : Int) (n : Nat) (hc : c = ALIVE ∨ c = DEAD) :
    switchResult c (n : Int) old = lifeRule c n := by
  unfold switchResult lifeRule ALIVE DEAD
  unfold ALIVE DEAD at hc
  rcases hc with rfl | rfl
  · by_cases h : n = 2 ∨ n = 3
    · rw [if_pos rfl, if_neg (by omega), if_pos (Or.inl ⟨rfl, h⟩)]
    · rw [if_pos rfl, if_pos (by omega), if_neg (by omega)]
  · by_cases h : n = 3
    · rw [if_neg (by decide), if_pos rfl, if_pos (by omega), if_pos (Or.inr ⟨rfl, h⟩)]
    · rw [if_neg (by decide), if_pos rfl, if_neg (by omega), if_neg (by omega)]

theorem nextCellValue_binary (g : Game) (x y c : Int) (hn : IsSquare g.N g.nextGrid)
    (hin : InGrid g.N x y) (hc : readCell g.grid x y = some c) (hb : c = ALIVE ∨ c = DEAD) :
    nextCellValue g x y = some (lifeRule c (aliveNeighbourCount g.N g.grid x y)) := by
  obtain ⟨old, hold⟩ := readCell_isSome g.N g.nextGrid x y hn hin
  unfold nextCellValue
  rw [hc, hold]
  simp only [Option.some_bind, Option.map_some', switchResult_binary c old _ hb]

theorem aliveNeighbourCount_le (n : Int) (grid : List (List Int)) (x y : Int) :
    aliveNeighbourCount n grid x y ≤ 8 := by
  rw [aliveNeighbourCount_eq]
  have h := aliveIndicator_le_one n grid
  have h1 := h (x + -1) (y + -1)
  have h2 := h (x + 0) (y + -1)
  have h3 := h (x + 1) (y + -1)
  have h4 := h (x + -1) (y + 0)
  have h5 := h (x + 1) (y + 0)
  have h6 := h (x + -1) (y + 1)
  have h7 := h (x + 0) (y + 1)
  have h8 := h (x + 1) (y + 1)
  omega

theorem aliveIndicator_congr (n : Int) (a b : List (List Int)) (x y : Int)
    (h : readCell a x y = readCell b x y) : aliveIndicator n a x y = aliveIndicator n b x y := by
  unfold aliveIndicator
  rw [h]

theorem inGrid_isInt64 (n x y : Int) (hN : IsInt64 n) (hin : InGrid n x y) :
    IsInt64 x ∧ IsInt64 y := by
  unfold IsInt64 at *
  unfold InGrid at hin
  omega

theorem aliveIndicator_congr_inGrid (n : Int) (a b : List (List Int)) (x y : Int)
    (h : InGrid n x y → readCell a x y = readCell b x y) :
    aliveIndicator n a x y = aliveIndicator n b x y := by
  unfold aliveIndicator
  by_cases hin : InGrid n x y
  · rw [h hin]
  · simp [hin]

/-! ## Toggling -/

/-- A loop over a list whose body never stops keeps an invariant of the state. -/
theorem foldlM_list_invariant {σ α : Type} (f : σ → α → Option σ) (P : σ → Prop)
    (hstep : ∀ s a, P s → ∃ s2, f s a = some s2 ∧ P s2) (l : List α) (s0 : σ) (h0 : P s0) :
    ∃ s2, l.foldlM f s0 = some s2 ∧ P s2 := by
  induction l generalizing s0 with
  | nil => exact ⟨s0, rfl, h0⟩
  | cons a l ih =>
    obtain ⟨s1, hs1, hp1⟩ := hstep s0 a h0
    obtain ⟨s2, hs2, hp2⟩ := ih s1 hp1
    exact ⟨s2, by simp [List.foldlM_cons, hs1, hs2], hp2⟩

/-- Method `toggleCell` on a state with a square current grid: it returns, and
changes the cell `(x, y)` of the current grid when that cell lies in the grid,
and nothing otherwise. -/
theorem toggleCell_spec (g : Game) (x y : Int) (hg : IsSquare g.N g.grid) :
    ∃ ng, g.toggleCell x y = some { g with grid := ng } ∧ IsSquare g.N ng ∧
      ∀ i j, readCell ng i j =
        if (i = x ∧ j = y) ∧ InGrid g.N x y then
          (readCell g.grid x y).map fun c => if c = ALIVE then DEAD else ALIVE
        else readCell g.grid i j := by
  unfold Game.toggleCell
  by_cases hin : InGrid g.N x y
  · have hguard : ¬ (x < 0 ∨ y < 0 ∨ x ≥ g.N ∨ y ≥ g.N) := by
      unfold InGrid at hin; omega
    obtain ⟨c, hc⟩ := readCell_isSome g.N g.grid x y hg hin
    rw [if_neg hguard, hc]
    simp only [Option.some_bind, Option.map_some']
    by_cases hca : c = ALIVE
    · obtain ⟨ng, h1, h2, h3⟩ := writeCell_spec g.N g.grid x y DEAD hg hin
      refine ⟨ng, by simp [hca, h1], h2, ?_⟩
      intro i j
      rw [h3 i j]
      simp [hca, hin]
    · obtain ⟨ng, h1, h2, h3⟩ := writeCell_spec g.N g.grid x y ALIVE hg hin
      refine ⟨ng, by simp [hca, h1], h2, ?_⟩
      intro i j
      rw [h3 i j]
      simp [hca, hin]
  · have hguard : x < 0 ∨ y < 0 ∨ x ≥ g.N ∨ y ≥ g.N := by
      unfold InGrid at hin; omega
    rw [if_pos hguard]
    exact ⟨g.grid, rfl, hg, fun i j => by simp [hin]⟩

/-- Method `interactAtPixel` on a state with a square current grid and a
non-zero cell size: it returns, and the new state differs from the old one in
the current grid at most, which is still square. -/
theorem interactAtPixel_frame (g : Game) (px py : Int) (hg : IsSquare g.N g.grid)
    (hcs : g.cellSize ≠ 0) :
    ∃ ng, g.interactAtPixel px py = some { g with grid := ng } ∧ IsSquare g.N ng := by
  have htoggle : ∀ (s : Game) (a b : Int),
      (∃ ng, s = { g with grid := ng } ∧ IsSquare g.N ng) →
      ∃ s2, s.toggleCell a b = some s2 ∧ ∃ ng, s2 = { g with grid := ng } ∧ IsSquare g.N ng := by
    rintro s a b ⟨ng, rfl, hsq⟩
    obtain ⟨ng2, h1, h2, _⟩ := toggleCell_spec { g with grid := ng } a b hsq
    exact ⟨_, h1, ng2, rfl, h2⟩
  unfold Game.interactAtPixel Game.goDiv
  by_cases hpy : py < g.margin
  · rw [if_pos hpy]
    exact ⟨g.grid, rfl, hg⟩
  · rw [if_neg hpy]
    simp only [if_neg hcs, Option.some_bind]
    split
    · exact ⟨g.grid, rfl, hg⟩
    · obtain ⟨s2, hs2, ng, rfl, hsq⟩ := foldlM_list_invariant
        (fun (s : Game) (dy : Int) => [-1, 0, 1].foldlM
          (fun (s : Game) (dx : Int) =>
            s.toggleCell (wrapInt (wrapInt (px.tdiv g.cellSize) + dx))
              (wrapInt (wrapInt ((wrapInt (py - g.margin)).tdiv g.cellSize) + dy))) s)
        (fun s => ∃ ng, s = { g with grid := ng } ∧ IsSquare g.N ng)
        (fun s dy hs => foldlM_list_invariant _ _ (fun s2 dx hs2 => htoggle s2 _ _ hs2) _ s hs)
        [-1, 0, 1] g ⟨g.grid, rfl, hg⟩
      exact ⟨ng, hs2, hsq⟩

/-- Repeated `step` keeps square buffers square and leaves `N` alone. -/
theorem steps_generation (k : Nat) : ∀ (g : Game), IsInt64 g.N → IsSquare g.N g.grid →
    IsSquare g.N g.nextGrid → -(2 ^ 63) ≤ g.generation → g.generation + (k : Int) < 2 ^ 63 →
    ∃ gk, g.steps k = some gk ∧ gk.generation = g.generation + (k : Int) := by
  induction k with
  | zero => intro g _ _ _ _ _; exact ⟨g, rfl, by simp⟩
  | succ k ih =>
    intro g hN hg hn h0 h1
    obtain ⟨ng, hstep, hsq, _⟩ := step_spec g hN hg hn
    have hw : wrapInt (g.generation + 1) = g.generation + 1 := by
      unfold wrapInt; push_cast at h1; omega
    obtain ⟨gk, hgk, hgen⟩ := ih
      { g with grid := ng, nextGrid := g.grid, generation := wrapInt (g.generation + 1) }
      hN hsq hg (by simp only [hw]; omega) (by simp only [hw]; push_cast at h1; omega)
    refine ⟨gk, ?_, ?_⟩
    · simp only [Game.steps, hstep, Option.some_bind, hgk]
    · rw [hgen]; simp only [hw]; push_cast; omega

/-! ## Grids given by a pattern -/

theorem aliveIndicator_pattern (n : Int) (grid : List (List Int)) (P : Int → Int → Prop)
    [∀ i j, Decidable (P i j)]
    (hpat : ∀ i j, InGrid n i j → readCell grid i j = some (if P i j then ALIVE else DEAD))
    (a b : Int) : aliveIndicator n grid a b = if InGrid n a b ∧ P a b then 1 else 0 := by
  unfold aliveIndicator
  by_cases hin : InGrid n a b
  · rw [hpat a b hin]
    by_cases hp : P a b
    · simp [hin, hp]
    · simp [hin, hp, ALIVE, DEAD]
  · simp [hin]

theorem aliveNeighbourCount_pattern (n : Int) (grid : List (List Int)) (P : Int → Int → Prop)
    [∀ i j, Decidable (P i j)]
    (hpat : ∀ i j, InGrid n i j → readCell grid i j = some (if P i j then ALIVE else DEAD))
    (x y : Int) : aliveNeighbourCount n grid x y = patternCount n P x y := by
  rw [aliveNeighbourCount_eq]
  unfold patternCount
  simp only [aliveIndicator_pattern n grid P hpat]

/-- One `step` from a grid with live cells `P` to a grid with live cells `Q`,
when the rule of the specification takes `P` to `Q` cell by cell. -/
theorem step_pattern (g : Game) (P Q : Int → Int → Prop) [∀ i j, Decidable (P i j)]
    [∀ i j, Decidable (Q i j)] (hN : IsInt64 g.N) (hg : IsSquare g.N g.grid)
    (hn : IsSquare g.N g.nextGrid)
    (hpat : ∀ i j, InGrid g.N i j → readCell g.grid i j = some (if P i j then ALIVE else DEAD))
    (hrule : ∀ i j, InGrid g.N i j →
      lifeRule (if P i j then ALIVE else DEAD) (patternCount g.N P i j) =
        if Q i j then ALIVE else DEAD) :
    ∃ ng,
      g.step =
        some { g with grid := ng, nextGrid := g.grid, generation := wrapInt (g.generation + 1) } ∧
      IsSquare g.N ng ∧
      ∀ i j, InGrid g.N i j → readCell ng i j = some (if Q i j then ALIVE else DEAD) := by
  obtain ⟨ng, h1, h2, h3⟩ := step_spec g hN hg hn
  refine ⟨ng, h1, h2, ?_⟩
  intro i j hin
  have hb : (if P i j then ALIVE else DEAD) = ALIVE ∨ (if P i j then ALIVE else DEAD) = DEAD := by
    split
    · exact Or.inl rfl
    · exact Or.inr rfl
  rw [h3 i j hin, nextCellValue_binary g i j _ hn hin (hpat i j hin) hb,
    aliveNeighbourCount_pattern g.N g.grid P hpat, hrule i j hin]

/-- A pattern that the rule leaves as it is stays for any number of steps. -/
theorem steps_still (P : Int → Int → Prop) [∀ i j, Decidable (P i j)] (k : Nat) :
    ∀ (g : Game), IsInt64 g.N → IsSquare g.N g.grid → IsSquare g.N g.nextGrid →
      (∀ i j, InGrid g.N i j → readCell g.grid i j = some (if P i j then ALIVE else DEAD)) →
      (∀ i j, InGrid g.N i j →
        lifeRule (if P i j then ALIVE else DEAD) (patternCount g.N P i j) =
          if P i j then ALIVE else DEAD) →
      ∃ gk, g.steps k = some gk ∧ gk.grid = g.grid := by
  induction k with
  | zero => intro g _ _ _ _ _; exact ⟨g, rfl, rfl⟩
  | succ k ih =>
    intro g hN hg hn hpat hrule
    obtain ⟨ng, h1, h2, h3⟩ := step_pattern g P P hN hg hn hpat hrule
    have hsame : ng = g.grid :=
      grid_ext g.N ng g.grid h2 hg (fun i j hin => by rw [h3 i j hin, hpat i j hin])
    subst hsame
    obtain ⟨gk, hgk, hgrid⟩ := ih
      { g with nextGrid := g.grid, generation := wrapInt (g.generation + 1) }
      hN hg hg hpat hrule
    exact ⟨gk, by simp only [Game.steps, h1, Option.some_bind, hgk], hgrid⟩

theorem readCell_mem (grid : List (List Int)) (x y c : Int) (h : readCell grid x y = some c) :
    ∃ row ∈ grid, c ∈ row := by
  unfold readCell at h
  cases hrow : index grid y with
  | none => simp [hrow] at h
  | some row =>
    simp only [hrow, Option.bind_some] at h
    exact ⟨row, index_mem _ _ _ hrow, index_mem _ _ _ h⟩

/-- The rule leaves a 2 x 2 block inside the grid as it is. -/
theorem block_rule (n x y : Int) (hx1 : x ≤ n - 2) (hy1 : y ≤ n - 2)
    (hx0 : 0 ≤ x) (hy0 : 0 ≤ y) (i j : Int) (hin : InGrid n i j) :
    lifeRule (if (i = x ∨ i = x + 1) ∧ (j = y ∨ j = y + 1) then ALIVE else DEAD)
      (patternCount n (fun i j => (i = x ∨ i = x + 1) ∧ (j = y ∨ j = y + 1)) i j) =
        if (i = x ∨ i = x + 1) ∧ (j = y ∨ j = y + 1) then ALIVE else DEAD := by
  unfold lifeRule patternCount InGrid ALIVE DEAD
  unfold InGrid at hin
  rcases (by omega : i ≤ x - 2 ∨ i = x - 1 ∨ i = x ∨ i = x + 1 ∨ i = x + 2 ∨ i ≥ x + 3) with
    h | h | h | h | h | h <;>
  rcases (by omega : j ≤ y - 2 ∨ j = y - 1 ∨ j = y ∨ j = y + 1 ∨ j = y + 2 ∨ j ≥ y + 3) with
    h2 | h2 | h2 | h2 | h2 | h2 <;>
  simp (disch := omega) only [if_pos, if_neg] <;>
  try decide

/-- The rule takes a horizontal line of three cells inside the grid to the
vertical line through its centre. -/
theorem blinker_rule_horizontal (n cx cy : Int) (hx0 : 1 ≤ cx) (hx1 : cx ≤ n - 2)
    (hy0 : 1 ≤ cy) (hy1 : cy ≤ n - 2) (i j : Int) (hin : InGrid n i j) :
    lifeRule (if (i = cx - 1 ∨ i = cx ∨ i = cx + 1) ∧ j = cy then ALIVE else DEAD)
      (patternCount n (fun i j => (i = cx - 1 ∨ i = cx ∨ i = cx + 1) ∧ j = cy) i j) =
        if i = cx ∧ (j = cy - 1 ∨ j = cy ∨ j = cy + 1) then ALIVE else DEAD := by
  unfold lifeRule patternCount InGrid ALIVE DEAD
  unfold InGrid at hin
  rcases (by omega : i ≤ cx - 3 ∨ i = cx - 2 ∨ i = cx - 1 ∨ i = cx ∨ i = cx + 1 ∨
      i = cx + 2 ∨ i ≥ cx + 3) with h | h | h | h | h | h | h <;>
  rcases (by omega : j ≤ cy - 2 ∨ j = cy - 1 ∨ j = cy ∨ j = cy + 1 ∨ j ≥ cy + 2) with
    h2 | h2 | h2 | h2 | h2 <;>
  simp (disch := omega) only [if_pos, if_neg] <;>
  try decide

/-- The rule takes a vertical line of three cells inside the grid to the
horizontal line through its centre. -/
theorem blinker_rule_vertical (n cx cy : Int) (hx0 : 1 ≤ cx) (hx1 : cx ≤ n - 2)
    (hy0 : 1 ≤ cy) (hy1 : cy ≤ n - 2) (i j : Int) (hin : InGrid n i j) :
    lifeRule (if i = cx ∧ (j = cy - 1 ∨ j = cy ∨ j = cy + 1) then ALIVE else DEAD)
      (patternCount n (fun i j => i = cx ∧ (j = cy - 1 ∨ j = cy ∨ j = cy + 1)) i j) =
        if (i = cx - 1 ∨ i = cx ∨ i = cx + 1) ∧ j = cy then ALIVE else DEAD := by
  unfold lifeRule patternCount InGrid ALIVE DEAD
  unfold InGrid at hin
  rcases (by omega : i ≤ cx - 2 ∨ i = cx - 1 ∨ i = cx ∨ i = cx + 1 ∨ i ≥ cx + 2) with
    h | h | h | h | h <;>
  rcases (by omega : j ≤ cy - 3 ∨ j = cy - 2 ∨ j = cy - 1 ∨ j = cy ∨ j = cy + 1 ∨
      j = cy + 2 ∨ j ≥ cy + 3) with h2 | h2 | h2 | h2 | h2 | h2 | h2 <;>
  simp (disch := omega) only [if_pos, if_neg] <;>
  try decide

/-! ## The claims -/

/-- C1: on a state whose two buffers are `N` x `N` and whose current grid holds
only `ALIVE` and `DEAD`, `step` returns, and every cell `(x, y)` of the grid of
the new state is `ALIVE` exactly when the old cell was `ALIVE` with a count of 2
or 3, or `DEAD` with a count of 3, and `DEAD` otherwise; the cell and the count
`countAliveNeighbors x y` are those of the state before the step. -/
theorem C1_step_applies_rule (g : Game) (hN : IsInt64 g.N) (hg : IsSquare g.N g.grid)
    (hn : IsSquare g.N g.nextGrid) (hb : IsBinary g.grid) :
    ∃ g2, g.step = some g2 ∧
      ∀ x y, InGrid g.N x y →
        ∃ c n, readCell g.grid x y = some c ∧ g.countAliveNeighbors x y = some n ∧
          readCell g2.grid x y =
            some (if (c = ALIVE ∧ (n = 2 ∨ n = 3)) ∨ (c = DEAD ∧ n = 3) then ALIVE else DEAD) := by
  obtain ⟨ng, h1, _, h3⟩ := step_spec g hN hg hn
  refine ⟨_, h1, ?_⟩
  intro x y hin
  obtain ⟨c, hc⟩ := readCell_isSome g.N g.grid x y hg hin
  have hcb := readCell_binary g.grid x y c hb hc
  obtain ⟨hx, hy⟩ := inGrid_isInt64 g.N x y hN hin
  refine ⟨c, _, hc, countAliveNeighbors_eq g x y hN hg hx hy, ?_⟩
  simp only
  rw [h3 x y hin, nextCellValue_binary g x y c hn hin hc hcb]
  unfold lifeRule
  simp only [Nat.cast_inj, Nat.cast_ofNat, Option.some.injEq]
  congr 1
  apply propext
  constructor
  · rintro (⟨h, h2 | h2⟩ | ⟨h, h2⟩)
    · exact Or.inl ⟨h, Or.inl (by omega)⟩
    · exact Or.inl ⟨h, Or.inr (by omega)⟩
    · exact Or.inr ⟨h, by omega⟩
  · rintro (⟨h, h2 | h2⟩ | ⟨h, h2⟩)
    · exact Or.inl ⟨h, Or.inl (by omega)⟩
    · exact Or.inl ⟨h, Or.inr (by omega)⟩
    · exact Or.inr ⟨h, by omega⟩

/-- Witness of C1 on the 3 x 3 blinker state. -/
theorem C1_step_applies_rule_witness :
    IsInt64 blinker3.N ∧ IsSquare blinker3.N blinker3.grid ∧
    IsSquare blinker3.N blinker3.nextGrid ∧ IsBinary blinker3.grid ∧
    ∃ g2, blinker3.step = some g2 ∧
      ∀ x y, InGrid blinker3.N x y →
        ∃ c n, readCell blinker3.grid x y = some c ∧
          blinker3.countAliveNeighbors x y = some n ∧
          readCell g2.grid x y =
            some (if (c = ALIVE ∧ (n = 2 ∨ n = 3)) ∨ (c = DEAD ∧ n = 3) then ALIVE else DEAD) :=
  ⟨by decide, by decide, by decide, by decide,
    C1_step_applies_rule blinker3 (by decide) (by decide) (by decide) (by decide)⟩

/-- C2: on an `N` x `N` grid and for every pair of Go integers `(x, y)`,
`countAliveNeighbors x y` returns the number of offsets `(dx, dy)` of
`{-1, 0, 1}²` other than `(0, 0)` with `0 ≤ x + dx < N`, `0 ≤ y + dy < N` and
`grid[y + dy][x + dx]` equal to `ALIVE`: cells outside the grid add nothing,
there is no wrap-around, and the cell itself is not counted.  The method is a
function of the state with the count as its only output: its body stores into
no field and no slice element. -/
theorem C2_countAliveNeighbors_moore (g : Game) (x y : Int) (hN : IsInt64 g.N)
    (hs : IsSquare g.N g.grid) (hx : IsInt64 x) (hy : IsInt64 y) :
    g.countAliveNeighbors x y =
      some ((neighbourOffsets.countP fun d =>
        decide (InGrid g.N (x + d.1) (y + d.2) ∧
          readCell g.grid (x + d.1) (y + d.2) = some ALIVE) : Nat) : Int) :=
  countAliveNeighbors_eq g x y hN hs hx hy

/-- Witness of C2: the corner `(0, 0)` of the 3 x 3 blinker state. -/
theorem C2_countAliveNeighbors_moore_witness :
    IsInt64 blinker3.N ∧ IsSquare blinker3.N blinker3.grid ∧ IsInt64 0 ∧ IsInt64 0 ∧
    blinker3.countAliveNeighbors 0 0 =
      some ((neighbourOffsets.countP fun d =>
        decide (InGrid blinker3.N (0 + d.1) (0 + d.2) ∧
          readCell blinker3.grid (0 + d.1) (0 + d.2) = some ALIVE) : Nat) : Int) :=
  ⟨by decide, by decide, by decide, by decide,
    C2_countAliveNeighbors_moore blinker3 0 0 (by decide) (by decide) (by decide) (by decide)⟩

/-- C3: on an `N` x `N` grid and for a cell `(x, y)` of the grid,
`countAliveNeighbors x y` returns a count between 0 and 8, and a second state
with the same `N` whose grid agrees with the first on every cell of the grid
other than `(x, y)` gets the same count. -/
theorem C3_count_range_and_own_cell (g g2 : Game) (x y : Int) (hN : IsInt64 g.N)
    (hs : IsSquare g.N g.grid) (hN2 : g2.N = g.N) (hs2 : IsSquare g2.N g2.grid)
    (hin : InGrid g.N x y)
    (hsame : ∀ i j, InGrid g.N i j → ¬ (i = x ∧ j = y) →
      readCell g2.grid i j = readCell g.grid i j) :
    (∃ c, g.countAliveNeighbors x y = some c ∧ 0 ≤ c ∧ c ≤ 8) ∧
      g2.countAliveNeighbors x y = g.countAliveNeighbors x y := by
  obtain ⟨hx, hy⟩ := inGrid_isInt64 g.N x y hN hin
  have hc := countAliveNeighbors_eq g x y hN hs hx hy
  have hc2 := countAliveNeighbors_eq g2 x y (hN2 ▸ hN) hs2 hx hy
  have hle := aliveNeighbourCount_le g.N g.grid x y
  refine ⟨⟨_, hc, by omega, by omega⟩, ?_⟩
  rw [hc, hc2, hN2, aliveNeighbourCount_eq, aliveNeighbourCount_eq]
  have hcell : ∀ dx dy : Int, ¬ (dx = 0 ∧ dy = 0) →
      aliveIndicator g.N g2.grid (x + dx) (y + dy) =
        aliveIndicator g.N g.grid (x + dx) (y + dy) := fun dx dy hd =>
    aliveIndicator_congr_inGrid g.N g2.grid g.grid _ _
      (fun h => hsame _ _ h (by omega))
  rw [hcell (-1) (-1) (by omega), hcell 0 (-1) (by omega), hcell 1 (-1) (by omega),
    hcell (-1) 0 (by omega), hcell 1 0 (by omega), hcell (-1) 1 (by omega),
    hcell 0 1 (by omega), hcell 1 1 (by omega)]

/-- Witness of C3: the centre of the 3 x 3 blinker, with the centre cell set
and cleared. -/
theorem C3_count_range_and_own_cell_witness :
    (∃ c, blinker3.countAliveNeighbors 1 1 = some c ∧ 0 ≤ c ∧ c ≤ 8) ∧
      blinker3Hole.countAliveNeighbors 1 1 = blinker3.countAliveNeighbors 1 1 :=
  C3_count_range_and_own_cell blinker3 blinker3Hole 1 1 (by decide) (by decide) (by decide)
    (by decide) (by decide) (by
      intro i j hin hne
      obtain ⟨h1, h2, h3, h4⟩ := hin
      have h2b : i < 3 := h2
      have h4b : j < 3 := h4
      interval_cases i <;> interval_cases j <;> first | rfl | exact absurd ⟨rfl, rfl⟩ hne)

/-- C4: on a state whose two buffers are `N` x `N`, `step` returns a state whose
scratch grid is the current grid of the state before the step, cell for cell,
and whose `N`, `cellSize` and `margin` are those of the state before. -/
theorem C4_step_swaps_buffers (g : Game) (hN : IsInt64 g.N) (hg : IsSquare g.N g.grid)
    (hn : IsSquare g.N g.nextGrid) :
    ∃ g2, g.step = some g2 ∧ g2.nextGrid = g.grid ∧ g2.N = g.N ∧
      g2.cellSize = g.cellSize ∧ g2.margin = g.margin := by
  obtain ⟨ng, h1, _, _⟩ := step_spec g hN hg hn
  exact ⟨_, h1, rfl, rfl, rfl, rfl⟩

/-- Witness of C4 on the 3 x 3 blinker state. -/
theorem C4_step_swaps_buffers_witness :
    ∃ g2, blinker3.step = some g2 ∧ g2.nextGrid = blinker3.grid ∧ g2.N = blinker3.N ∧
      g2.cellSize = blinker3.cellSize ∧ g2.margin = blinker3.margin :=
  C4_step_swaps_buffers blinker3 (by decide) (by decide) (by decide)

/-- C5, as stated, fails: from the generation `2 ^ 63 - 1` one `step` takes the
counter to `-2 ^ 63`, not to `2 ^ 63`; the counter has decreased. -/
theorem C5_generation_wraps :
    lastGeneration.step.map Game.generation = some (-(2 ^ 63)) ∧
      lastGeneration.step.map Game.generation ≠ some (lastGeneration.generation + 1) := by
  decide

/-- C5, amended: on a state whose two buffers are `N` x `N` and whose generation
`c` satisfies `c + k ≤ 2 ^ 63 - 1`, each of the first `k` steps returns, the
counter after `j ≤ k` steps is `c + j`, and it has not decreased; `toggleCell`
returns and leaves the counter as it is for every argument, and so does
`interactAtPixel` when `cellSize` is not zero.  The condition on `cellSize`
bears on `interactAtPixel` only. -/
theorem C5_generation_counter (g : Game) (k : Nat) (x y px py : Int) (hN : IsInt64 g.N)
    (hg : IsSquare g.N g.grid) (hn : IsSquare g.N g.nextGrid)
    (hgen : IsInt64 g.generation) (hk : g.generation + (k : Int) ≤ 2 ^ 63 - 1) :
    (∀ j : Nat, j ≤ k →
        ∃ gj, g.steps j = some gj ∧ gj.generation = g.generation + (j : Int) ∧
          g.generation ≤ gj.generation) ∧
      (∃ g2, g.toggleCell x y = some g2 ∧ g2.generation = g.generation) ∧
      (g.cellSize ≠ 0 →
        ∃ g2, g.interactAtPixel px py = some g2 ∧ g2.generation = g.generation) := by
  refine ⟨?_, ?_, ?_⟩
  · intro j hj
    obtain ⟨gj, h1, h2⟩ := steps_generation j g hN hg hn hgen.1 (by omega)
    exact ⟨gj, h1, h2, by omega⟩
  · obtain ⟨ng, h1, _, _⟩ := toggleCell_spec g x y hg
    exact ⟨_, h1, rfl⟩
  · intro hcs
    obtain ⟨ng, h1, _⟩ := interactAtPixel_frame g px py hg hcs
    exact ⟨_, h1, rfl⟩

/-- Witness of C5: two steps, a toggle and a click on the 3 x 3 blinker state. -/
theorem C5_generation_counter_witness :
    (∀ j : Nat, j ≤ 2 →
        ∃ gj, blinker3.steps j = some gj ∧ gj.generation = blinker3.generation + (j : Int) ∧
          blinker3.generation ≤ gj.generation) ∧
      (∃ g2, blinker3.toggleCell 1 1 = some g2 ∧ g2.generation = blinker3.generation) ∧
      (∃ g2, blinker3.interactAtPixel 5 45 = some g2 ∧
        g2.generation = blinker3.generation) := by
  obtain ⟨h1, h2, h3⟩ := C5_generation_counter blinker3 2 1 1 5 45 (by decide) (by decide)
    (by decide) (by decide) (by decide)
  exact ⟨h1, h2, h3 (by decide)⟩

/-- C6: on a state whose two buffers are `N` x `N` and whose current grid holds
`DEAD` in every cell, any number `k` of steps returns a state whose current grid
holds `DEAD` in every cell, whatever the scratch grid held. -/
theorem C6_dead_grid_stays_dead (g : Game) (k : Nat) (hN : IsInt64 g.N)
    (hg : IsSquare g.N g.grid) (hn : IsSquare g.N g.nextGrid)
    (hdead : ∀ row ∈ g.grid, ∀ c ∈ row, c = DEAD) :
    ∃ gk, g.steps k = some gk ∧ ∀ row ∈ gk.grid, ∀ c ∈ row, c = DEAD := by
  obtain ⟨gk, h1, h2⟩ := steps_still (fun _ _ => False) k g hN hg hn
    (fun i j hin => by
      obtain ⟨c, hc⟩ := readCell_isSome g.N g.grid i j hg hin
      obtain ⟨row, hrow, hmem⟩ := readCell_mem g.grid i j c hc
      rw [hc, hdead row hrow c hmem]
      simp)
    (fun i j _ => by simp [lifeRule, patternCount, ALIVE, DEAD])
  exact ⟨gk, h1, h2 ▸ hdead⟩

/-- Witness of C6: four steps from the dead 3 x 3 grid over a live scratch grid. -/
theorem C6_dead_grid_stays_dead_witness :
    ∃ gk, dead3.steps 4 = some gk ∧ ∀ row ∈ gk.grid, ∀ c ∈ row, c = DEAD :=
  C6_dead_grid_stays_dead dead3 4 (by decide) (by decide) (by decide) (by decide)

/-- C7: on a state whose two buffers are `N` x `N` and whose live cells are
exactly `(x, y)`, `(x + 1, y)`, `(x, y + 1)`, `(x + 1, y + 1)` with
`0 ≤ x, y ≤ N - 2`, all other cells being `DEAD`, any number `k` of steps
returns a state whose current grid is the initial one. -/
theorem C7_block_still_life (g : Game) (x y : Int) (k : Nat) (hN : IsInt64 g.N)
    (hg : IsSquare g.N g.grid) (hn : IsSquare g.N g.nextGrid)
    (hx0 : 0 ≤ x) (hx1 : x ≤ g.N - 2) (hy0 : 0 ≤ y) (hy1 : y ≤ g.N - 2)
    (hblock : ∀ i j, InGrid g.N i j → readCell g.grid i j =
      some (if (i = x ∨ i = x + 1) ∧ (j = y ∨ j = y + 1) then ALIVE else DEAD)) :
    ∃ gk, g.steps k = some gk ∧ gk.grid = g.grid :=
  steps_still (fun i j => (i = x ∨ i = x + 1) ∧ (j = y ∨ j = y + 1)) k g hN hg hn hblock
    (fun i j hin => block_rule g.N x y hx1 hy1 hx0 hy0 i j hin)

/-- Witness of C7: five steps from the block in the corner of a 3 x 3 grid. -/
theorem C7_block_still_life_witness :
    ∃ gk, block3.steps 5 = some gk ∧ gk.grid = block3.grid :=
  C7_block_still_life block3 0 0 5 (by decide) (by decide) (by decide) (by decide) (by decide)
    (by decide) (by decide) (by
      intro i j hin
      obtain ⟨h1, h2, h3, h4⟩ := hin
      have h2b : i < 3 := h2
      have h4b : j < 3 := h4
      interval_cases i <;> interval_cases j <;> rfl)

/-- C8: on a state whose two buffers are `N` x `N` and whose live cells are
exactly `(cx - 1, cy)`, `(cx, cy)`, `(cx + 1, cy)` with `1 ≤ cx, cy ≤ N - 2`,
one step returns a state whose live cells are exactly `(cx, cy - 1)`,
`(cx, cy)`, `(cx, cy + 1)`, and a second step returns a state whose current
grid is the initial one. -/
theorem C8_blinker_period_two (g : Game) (cx cy : Int) (hN : IsInt64 g.N)
    (hg : IsSquare g.N g.grid) (hn : IsSquare g.N g.nextGrid)
    (hx0 : 1 ≤ cx) (hx1 : cx ≤ g.N - 2) (hy0 : 1 ≤ cy) (hy1 : cy ≤ g.N - 2)
    (hline : ∀ i j, InGrid g.N i j → readCell g.grid i j =
      some (if (i = cx - 1 ∨ i = cx ∨ i = cx + 1) ∧ j = cy then ALIVE else DEAD)) :
    ∃ g1 g2, g.step = some g1 ∧
      (∀ i j, InGrid g.N i j → readCell g1.grid i j =
        some (if i = cx ∧ (j = cy - 1 ∨ j = cy ∨ j = cy + 1) then ALIVE else DEAD)) ∧
      g1.step = some g2 ∧ g2.grid = g.grid := by
  obtain ⟨ng1, h1, hsq1, hcells1⟩ := step_pattern g
    (fun i j => (i = cx - 1 ∨ i = cx ∨ i = cx + 1) ∧ j = cy)
    (fun i j => i = cx ∧ (j = cy - 1 ∨ j = cy ∨ j = cy + 1)) hN hg hn hline
    (fun i j hin => blinker_rule_horizontal g.N cx cy hx0 hx1 hy0 hy1 i j hin)
  obtain ⟨ng2, h2, hsq2, hcells2⟩ := step_pattern
    { g with grid := ng1, nextGrid := g.grid, generation := wrapInt (g.generation + 1) }
    (fun i j => i = cx ∧ (j = cy - 1 ∨ j = cy ∨ j = cy + 1))
    (fun i j => (i = cx - 1 ∨ i = cx ∨ i = cx + 1) ∧ j = cy) hN hsq1 hg hcells1
    (fun i j hin => blinker_rule_vertical g.N cx cy hx0 hx1 hy0 hy1 i j hin)
  refine ⟨_, _, h1, hcells1, h2, ?_⟩
  exact grid_ext g.N ng2 g.grid hsq2 hg (fun i j hin => by rw [hcells2 i j hin, hline i j hin])

/-- Witness of C8: the blinker in the middle of the 3 x 3 grid. -/
theorem C8_blinker_period_two_witness :
    ∃ g1 g2, blinker3.step = some g1 ∧
      (∀ i j, InGrid blinker3.N i j → readCell g1.grid i j =
        some (if i = 1 ∧ (j = 1 - 1 ∨ j = 1 ∨ j = 1 + 1) then ALIVE else DEAD)) ∧
      g1.step = some g2 ∧ g2.grid = blinker3.grid :=
  C8_blinker_period_two blinker3 1 1 (by decide) (by decide) (by decide) (by decide) (by decide)
    (by decide) (by decide) (by
      intro i j hin
      obtain ⟨h1, h2, h3, h4⟩ := hin
      have h2b : i < 3 := h2
      have h4b : j < 3 := h4
      interval_cases i <;> interval_cases j <;> rfl)

/-- C9: on a state whose two buffers are `N` x `N`, a cell `(x, y)` of the grid
that is `ALIVE` and for which `countAliveNeighbors x y` returns 0 is `DEAD` in
the current grid of the state `step` returns. -/
theorem C9_isolated_cell_dies (g : Game) (x y : Int) (hN : IsInt64 g.N)
    (hg : IsSquare g.N g.grid) (hn : IsSquare g.N g.nextGrid) (hin : InGrid g.N x y)
    (halive : readCell g.grid x y = some ALIVE) (hcount : g.countAliveNeighbors x y = some 0) :
    ∃ g2, g.step = some g2 ∧ readCell g2.grid x y = some DEAD := by
  obtain ⟨ng, h1, _, h3⟩ := step_spec g hN hg hn
  refine ⟨_, h1, ?_⟩
  obtain ⟨hx, hy⟩ := inGrid_isInt64 g.N x y hN hin
  have hc := countAliveNeighbors_eq g x y hN hg hx hy
  rw [hcount] at hc
  have hzero : aliveNeighbourCount g.N g.grid x y = 0 := by
    have := Option.some.inj hc
    omega
  simp only
  rw [h3 x y hin, nextCellValue_binary g x y ALIVE hn hin halive (Or.inl rfl), hzero]
  rfl

/-- Witness of C9: the lonely centre cell of a 3 x 3 grid. -/
theorem C9_isolated_cell_dies_witness :
    ∃ g2, lonely3.step = some g2 ∧ readCell g2.grid 1 1 = some DEAD :=
  C9_isolated_cell_dies lonely3 1 1 (by decide) (by decide) (by decide) (by decide) (by decide)
    (by decide)

/-- C10: two states with the same `N` and the same `N` x `N` current grid of
`ALIVE` and `DEAD` cells, each over an `N` x `N` scratch grid of any contents
and with any generation, are taken by `step` to states with the same current
grid. -/
theorem C10_step_function_of_grid (g h : Game) (hN : IsInt64 g.N) (hNh : h.N = g.N)
    (hgrid : h.grid = g.grid) (hg : IsSquare g.N g.grid) (hn : IsSquare g.N g.nextGrid)
    (hnh : IsSquare h.N h.nextGrid) (hb : IsBinary g.grid) :
    ∃ g2 h2, g.step = some g2 ∧ h.step = some h2 ∧ g2.grid = h2.grid := by
  obtain ⟨ng, h1, hsq, hcells⟩ := step_spec g hN hg hn
  obtain ⟨nh, h1h, hsqh, hcellsh⟩ := step_spec h (hNh ▸ hN) (by rw [hNh, hgrid]; exact hg) hnh
  refine ⟨_, _, h1, h1h, ?_⟩
  simp only
  apply grid_ext g.N ng nh hsq (hNh ▸ hsqh)
  intro i j hin
  obtain ⟨c, hc⟩ := readCell_isSome g.N g.grid i j hg hin
  have hcb := readCell_binary g.grid i j c hb hc
  rw [hcells i j hin, hcellsh i j (hNh ▸ hin),
    nextCellValue_binary g i j c hn hin hc hcb,
    nextCellValue_binary h i j c hnh (hNh ▸ hin) (hgrid ▸ hc) hcb, hNh, hgrid]

/-- Witness of C10: the blinker state and the same grid over another scratch
grid and generation. -/
theorem C10_step_function_of_grid_witness :
    ∃ g2 h2, blinker3.step = some g2 ∧ blinker3Other.step = some h2 ∧ g2.grid = h2.grid :=
  C10_step_function_of_grid blinker3 blinker3Other (by decide) (by decide) (by decide)
    (by decide) (by decide) (by decide) (by decide)

/-! ## Sequences of toggles -/

theorem toggleValue_binary (c : Int) : toggleValue c = ALIVE ∨ toggleValue c = DEAD := by
  unfold toggleValue
  split
  · exact Or.inr rfl
  · exact Or.inl rfl

theorem toggleValue_ne (c : Int) : toggleValue c ≠ c := by
  unfold toggleValue ALIVE DEAD
  split <;> omega

theorem toggleValue_toggleValue (c : Int) (hc : c = ALIVE ∨ c = DEAD) :
    toggleValue (toggleValue c) = c := by
  rcases hc with rfl | rfl <;> decide

/-- The cells of the grid after one `toggleCell`, as a function of the cells
before. -/
theorem toggleCell_cells (g : Game) (x y : Int) (hg : IsSquare g.N g.grid) :
    ∃ ng, g.toggleCell x y = some { g with grid := ng } ∧ IsSquare g.N ng ∧
      ∀ i j, readCell ng i j = (readCell g.grid i j).map fun c =>
        if (i = x ∧ j = y) ∧ InGrid g.N x y then toggleValue c else c := by
  obtain ⟨ng, h1, h2, h3⟩ := toggleCell_spec g x y hg
  refine ⟨ng, h1, h2, ?_⟩
  intro i j
  rw [h3 i j]
  by_cases h : (i = x ∧ j = y) ∧ InGrid g.N x y
  · simp only [if_pos h]
    rw [h.1.1, h.1.2]
    rfl
  · simp only [if_neg h]
    cases readCell g.grid i j <;> rfl

/-- The cells of the grid after a sequence of toggles: every cell has been
toggled as often as it occurs in the sequence. -/
theorem toggleAll_spec (cells : List (Int × Int)) : ∀ (g : Game), IsSquare g.N g.grid →
    ∃ ng, toggleAll g cells = some { g with grid := ng } ∧ IsSquare g.N ng ∧
      ∀ i j, readCell ng i j =
        (readCell g.grid i j).map (Nat.iterate toggleValue (hitCount g.N cells i j)) := by
  induction cells with
  | nil =>
    intro g hg
    refine ⟨g.grid, rfl, hg, ?_⟩
    intro i j
    cases readCell g.grid i j <;> rfl
  | cons p l ih =>
    intro g hg
    obtain ⟨ng1, h1, hsq1, hc1⟩ := toggleCell_cells g p.1 p.2 hg
    obtain ⟨ng2, h2, hsq2, hc2⟩ := ih { g with grid := ng1 } hsq1
    refine ⟨ng2, ?_, hsq2, ?_⟩
    · unfold toggleAll at h2 ⊢
      rw [List.foldlM_cons, h1]
      exact h2
    · intro i j
      rw [hc2 i j, hc1 i j]
      unfold hitCount
      rw [List.countP_cons]
      cases readCell g.grid i j with
      | none => rfl
      | some c =>
        simp only [Option.map_some', decide_eq_true_eq]
        by_cases h : (i = p.1 ∧ j = p.2) ∧ InGrid g.N p.1 p.2
        · rw [if_pos h, if_pos h, Function.iterate_succ_apply]
        · rw [if_neg h, if_neg h, Nat.add_zero]

/-- Method `interactAtPixel` is the resolution of the pixel followed by the
nine toggles. -/
theorem interactAtPixel_eq (g : Game) (px py : Int) :
    g.interactAtPixel px py = (resolveCell g px py).bind fun r =>
      match r with
      | none => some g
      | some c => toggleAll g (toggleTargets c.1 c.2) := by
  unfold Game.interactAtPixel resolveCell
  by_cases hpy : py < g.margin
  · simp [hpy]
  · simp only [if_neg hpy]
    cases hx : Game.goDiv px g.cellSize with
    | none => rfl
    | some gx =>
      cases hy : Game.goDiv (wrapInt (py - g.margin)) g.cellSize with
      | none => rfl
      | some gy =>
        simp only [Option.some_bind]
        split
        · rfl
        · simp only [Option.some_bind, toggleAll, toggleTargets, List.foldlM_cons,
            List.foldlM_nil, bind_assoc, pure_bind, Option.bind_eq_bind, Option.pure_def,
            Option.bind_some, Option.bind_assoc]

/-! ## The cell a pixel resolves to -/

theorem wrapInt_eq (v : Int) (h : IsInt64 v) : wrapInt v = v := by
  unfold IsInt64 at h
  unfold wrapInt
  omega

/-- A read outside a square grid stops. -/
theorem readCell_eq_none (n : Int) (grid : List (List Int)) (x y : Int) (hs : IsSquare n grid)
    (hout : ¬ InGrid n x y) : readCell grid x y = none := by
  obtain ⟨hlen, hrows⟩ := hs
  unfold readCell
  cases hrow : index grid y with
  | none => rfl
  | some row =>
    have hmem := index_mem grid y row hrow
    have hr := hrows row hmem
    have hy : 0 ≤ y ∧ y < n := by
      unfold index at hrow
      by_cases hy0 : y < 0
      · rw [if_pos hy0] at hrow; cases hrow
      · rw [if_neg hy0] at hrow
        have := (List.getElem?_eq_some.mp hrow).1
        omega
    have hx : ¬ (0 ≤ x ∧ x < n) := by
      unfold InGrid at hout
      omega
    simp only [Option.some_bind]
    unfold index
    by_cases hx0 : x < 0
    · rw [if_pos hx0]
    · rw [if_neg hx0]
      exact List.getElem?_eq_none (by omega)

/-- Around a cell of the grid the nine targets are nine different cells: a
cell of the grid is hit once when it is at distance at most 1, and never
otherwise. -/
theorem hitCount_toggleTargets (n cx cy : Int) (hN : IsInt64 n) (hc : InGrid n cx cy)
    (i j : Int) :
    hitCount n (toggleTargets cx cy) i j =
      if (|i - cx| ≤ 1 ∧ |j - cy| ≤ 1) ∧ InGrid n i j then 1 else 0 := by
  unfold InGrid at hc
  unfold IsInt64 at hN
  have hw : ∀ v d : Int, 0 ≤ v → v < n → (d = -1 ∨ d = 0 ∨ d = 1) → wrapInt (v + d) = v + d := by
    intro v d h0 h1 hd
    unfold wrapInt
    omega
  unfold hitCount toggleTargets
  rw [hw cx (-1) hc.1 hc.2.1 (by omega), hw cx 0 hc.1 hc.2.1 (by omega),
    hw cx 1 hc.1 hc.2.1 (by omega), hw cy (-1) hc.2.2.1 hc.2.2.2 (by omega),
    hw cy 0 hc.2.2.1 hc.2.2.2 (by omega), hw cy 1 hc.2.2.1 hc.2.2.2 (by omega)]
  simp only [List.countP_cons, List.countP_nil, decide_eq_true_eq, abs_sub_le_iff, InGrid]
  rcases (by omega : i ≤ cx - 2 ∨ i = cx - 1 ∨ i = cx ∨ i = cx + 1 ∨ i ≥ cx + 2) with
    h | h | h | h | h <;>
  rcases (by omega : j ≤ cy - 2 ∨ j = cy - 1 ∨ j = cy ∨ j = cy + 1 ∨ j ≥ cy + 2) with
    h2 | h2 | h2 | h2 | h2 <;>
  by_cases hi : 0 ≤ i ∧ i < n <;>
  by_cases hj : 0 ≤ j ∧ j < n <;>
  simp (disch := omega) only [if_pos, if_neg] <;>
  omega

theorem resolveCell_some (g : Game) (px py cx cy : Int)
    (h : resolveCell g px py = some (some (cx, cy))) :
    InGrid g.N cx cy ∧ Game.goDiv px g.cellSize = some cx ∧
      Game.goDiv (wrapInt (py - g.margin)) g.cellSize = some cy ∧ ¬ py < g.margin := by
  unfold resolveCell at h
  by_cases hpy : py < g.margin
  · rw [if_pos hpy] at h; cases h
  · rw [if_neg hpy] at h
    cases hx : Game.goDiv px g.cellSize with
    | none => rw [hx] at h; cases h
    | some gx =>
      cases hy : Game.goDiv (wrapInt (py - g.margin)) g.cellSize with
      | none => rw [hx, hy] at h; cases h
      | some gy =>
        rw [hx, hy] at h
        simp only [Option.some_bind] at h
        split at h
        · cases h
        · rename_i hguard
          simp only [Option.some.injEq, Prod.mk.injEq] at h
          obtain ⟨rfl, rfl⟩ := h
          refine ⟨?_, rfl, rfl, hpy⟩
          unfold InGrid
          omega

theorem resolveCell_of_goDiv (g : Game) (px py cx cy : Int) (hpy : g.margin ≤ py)
    (hx : Game.goDiv px g.cellSize = some cx)
    (hy : Game.goDiv (wrapInt (py - g.margin)) g.cellSize = some cy) (hin : InGrid g.N cx cy) :
    resolveCell g px py = some (some (cx, cy)) := by
  unfold resolveCell
  unfold InGrid at hin
  rw [if_neg (by omega), hx, hy]
  simp only [Option.some_bind]
  rw [if_neg (by omega)]

/-- The cells of the grid after `interactAtPixel`, for a pixel that resolves to
the cell `(cx, cy)`. -/
theorem interactAtPixel_cells (g : Game) (px py cx cy : Int) (hN : IsInt64 g.N)
    (hg : IsSquare g.N g.grid) (hres : resolveCell g px py = some (some (cx, cy))) :
    ∃ ng, g.interactAtPixel px py = some { g with grid := ng } ∧ IsSquare g.N ng ∧
      ∀ i j, readCell ng i j = (readCell g.grid i j).map fun c =>
        if (|i - cx| ≤ 1 ∧ |j - cy| ≤ 1) ∧ InGrid g.N i j then toggleValue c else c := by
  obtain ⟨hin, _, _, _⟩ := resolveCell_some g px py cx cy hres
  obtain ⟨ng, h1, h2, h3⟩ := toggleAll_spec (toggleTargets cx cy) g hg
  refine ⟨ng, ?_, h2, ?_⟩
  · rw [interactAtPixel_eq, hres]
    exact h1
  · intro i j
    rw [h3 i j, hitCount_toggleTargets g.N cx cy hN hin i j]
    cases readCell g.grid i j with
    | none => rfl
    | some c =>
      simp only [Option.map_some']
      split <;> rfl

/-- Go's quotient of a non-negative `int` by a positive one is the mathematical
quotient. -/
theorem goDiv_nonneg (a b : Int) (ha : 0 ≤ a) (hat : a < 2 ^ 63) (hb : 0 < b) :
    Game.goDiv a b = some (a / b) := by
  unfold Game.goDiv
  rw [if_neg (by omega), Int.tdiv_eq_ediv ha (le_of_lt hb)]
  have h0 := Int.ediv_nonneg ha (le_of_lt hb)
  have h1 := Int.ediv_le_self b ha
  rw [wrapInt_eq _ ⟨by omega, by omega⟩]

/-! ## The claims on interaction -/

/-- C11: on a state with an `N` x `N` current grid and `cellSize > 0`, for a
pixel with `px ≥ 0` and `py ≥ margin` whose resolved cell `(cx, cy)`, the two
quotients `px / g.cellSize` and `(py - g.margin) / g.cellSize` the method
computes, lies in the grid: `cx` is the mathematical quotient of `px` by
`cellSize`, and so is `cy` for `py - margin` when that difference is below
`2 ^ 63`; `interactAtPixel` returns; the scratch grid and the generation are
as before; the current grid differs from the one before exactly at the cells
`(i, j)` of the grid with `|i - cx| ≤ 1` and `|j - cy| ≤ 1`; each of these
holds `DEAD` where it held `ALIVE` and `ALIVE` where it held anything else;
and for the corner `cx = cy = 0` with `N ≥ 2` the changed cells are exactly
`(0, 0)`, `(1, 0)`, `(0, 1)`, `(1, 1)`. -/
theorem C11_interact_flips_neighbourhood (g : Game) (px py cx cy : Int) (hN : IsInt64 g.N)
    (hg : IsSquare g.N g.grid) (hcs : 0 < g.cellSize) (hpx : 0 ≤ px) (hpxT : IsInt64 px)
    (hpy : g.margin ≤ py) (hcx : Game.goDiv px g.cellSize = some cx)
    (hcy : Game.goDiv (wrapInt (py - g.margin)) g.cellSize = some cy)
    (hin : InGrid g.N cx cy) :
    cx = px / g.cellSize ∧ (py - g.margin < 2 ^ 63 → cy = (py - g.margin) / g.cellSize) ∧
    ∃ g2, g.interactAtPixel px py = some g2 ∧ g2.nextGrid = g.nextGrid ∧
      g2.generation = g.generation ∧ IsSquare g.N g2.grid ∧
      (∀ i j, readCell g2.grid i j ≠ readCell g.grid i j ↔
        (|i - cx| ≤ 1 ∧ |j - cy| ≤ 1) ∧ InGrid g.N i j) ∧
      (∀ i j, (|i - cx| ≤ 1 ∧ |j - cy| ≤ 1) ∧ InGrid g.N i j →
        ∃ c, readCell g.grid i j = some c ∧
          readCell g2.grid i j = some (if c = ALIVE then DEAD else ALIVE)) ∧
      (2 ≤ g.N → cx = 0 → cy = 0 →
        ∀ i j, readCell g2.grid i j ≠ readCell g.grid i j ↔
          (i = 0 ∨ i = 1) ∧ (j = 0 ∨ j = 1)) := by
  have hres := resolveCell_of_goDiv g px py cx cy hpy hcx hcy hin
  obtain ⟨ng, h1, h2, h3⟩ := interactAtPixel_cells g px py cx cy hN hg hres
  have hchanged : ∀ i j, readCell ng i j ≠ readCell g.grid i j ↔
      (|i - cx| ≤ 1 ∧ |j - cy| ≤ 1) ∧ InGrid g.N i j := by
    intro i j
    rw [h3 i j]
    by_cases hij : InGrid g.N i j
    · obtain ⟨c, hc⟩ := readCell_isSome g.N g.grid i j hg hij
      rw [hc]
      simp only [Option.map_some', ne_eq, Option.some.injEq]
      by_cases hnear : |i - cx| ≤ 1 ∧ |j - cy| ≤ 1
      · simp only [hnear, hij, and_self, if_true, iff_true]
        exact toggleValue_ne c
      · simp [hnear]
    · rw [readCell_eq_none g.N g.grid i j hg hij]
      simp [hij]
  refine ⟨?_, ?_, _, h1, rfl, rfl, h2, hchanged, ?_, ?_⟩
  · have := goDiv_nonneg px g.cellSize hpx hpxT.2 hcs
    rw [hcx] at this
    exact Option.some.inj this
  · intro hfit
    have hw : wrapInt (py - g.margin) = py - g.margin :=
      wrapInt_eq _ ⟨by omega, hfit⟩
    have := goDiv_nonneg (py - g.margin) g.cellSize (by omega) hfit hcs
    rw [hw, this] at hcy
    exact (Option.some.inj hcy).symm
  · intro i j hnear
    obtain ⟨c, hc⟩ := readCell_isSome g.N g.grid i j hg hnear.2
    refine ⟨c, hc, ?_⟩
    simp only
    rw [h3 i j, hc]
    simp only [Option.map_some', if_pos hnear]
    rfl
  · intro h2N hx0 hy0 i j
    simp only
    rw [hchanged i j, hx0, hy0]
    simp only [sub_zero, abs_le, InGrid]
    omega

/-- Witness of C11: a click on the pixel `(5, 45)`, inside the corner cell
`(0, 0)` of the 3 x 3 blinker state. -/
theorem C11_interact_flips_neighbourhood_witness :
    (0 : Int) = 5 / blinker3.cellSize ∧
    (45 - blinker3.margin < 2 ^ 63 → (0 : Int) = (45 - blinker3.margin) / blinker3.cellSize) ∧
    ∃ g2, blinker3.interactAtPixel 5 45 = some g2 ∧ g2.nextGrid = blinker3.nextGrid ∧
      g2.generation = blinker3.generation ∧ IsSquare blinker3.N g2.grid ∧
      (∀ i j, readCell g2.grid i j ≠ readCell blinker3.grid i j ↔
        (|i - 0| ≤ 1 ∧ |j - 0| ≤ 1) ∧ InGrid blinker3.N i j) ∧
      (∀ i j, (|i - 0| ≤ 1 ∧ |j - 0| ≤ 1) ∧ InGrid blinker3.N i j →
        ∃ c, readCell blinker3.grid i j = some c ∧
          readCell g2.grid i j = some (if c = ALIVE then DEAD else ALIVE)) ∧
      (2 ≤ blinker3.N → (0 : Int) = 0 → (0 : Int) = 0 →
        ∀ i j, readCell g2.grid i j ≠ readCell blinker3.grid i j ↔
          (i = 0 ∨ i = 1) ∧ (j = 0 ∨ j = 1)) :=
  C11_interact_flips_neighbourhood blinker3 5 45 0 0 (by decide) (by decide) (by decide)
    (by decide) (by decide) (by decide) (by decide) (by decide) (by decide)

/-- C12: for a pixel in the header region, `py < margin`, whatever `px` is,
`interactAtPixel` returns the state it was called on: current grid, scratch
grid and generation are unchanged. -/
theorem C12_header_click_ignored (g : Game) (px py : Int) (hpy : py < g.margin) :
    g.interactAtPixel px py = some g := by
  unfold Game.interactAtPixel
  rw [if_pos hpy]

/-- Witness of C12: a click on the pixel `(5, 10)` of the 3 x 3 blinker state. -/
theorem C12_header_click_ignored_witness : blinker3.interactAtPixel 5 10 = some blinker3 :=
  C12_header_click_ignored blinker3 5 10 (by decide)

/-- C13 fails on the code: the pixel `(-5, 45)` lies left of the grid, `px < 0`,
and `cellSize` is 12, yet `-5 / 12` is 0 in Go, the pixel resolves to the cell
`(0, 0)`, and `interactAtPixel` changes the four cells `(0, 0)`, `(1, 0)`,
`(0, 1)`, `(1, 1)` of the current grid. -/
theorem C13_click_left_of_grid_toggles :
    0 < blinker3.cellSize ∧ (-5 : Int) < 0 ∧
    resolveCell blinker3 (-5) 45 = some (some (0, 0)) ∧
    (blinker3.interactAtPixel (-5) 45).map Game.grid = some [[1, 1, 0], [0, 0, 1], [0, 0, 0]] ∧
    (blinker3.interactAtPixel (-5) 45).map Game.grid ≠ some blinker3.grid := by
  decide

/-- C14: on a state with an `N` x `N` current grid of `ALIVE` and `DEAD` cells,
`toggleCell x y` returns; for `x < 0`, `y < 0`, `x ≥ N` or `y ≥ N` it returns
the state it was called on; otherwise the cell `(x, y)` goes from `ALIVE` to
`DEAD` or from `DEAD` to `ALIVE`, every other cell of the current grid is as
before, and so are the scratch grid, the generation and the other fields. -/
theorem C14_toggleCell_effect (g : Game) (x y : Int) (hg : IsSquare g.N g.grid)
    (hb : IsBinary g.grid) :
    ((x < 0 ∨ y < 0 ∨ x ≥ g.N ∨ y ≥ g.N) → g.toggleCell x y = some g) ∧
    (¬ (x < 0 ∨ y < 0 ∨ x ≥ g.N ∨ y ≥ g.N) →
      ∃ g2 c, g.toggleCell x y = some g2 ∧ readCell g.grid x y = some c ∧
        ((c = ALIVE ∧ readCell g2.grid x y = some DEAD) ∨
          (c = DEAD ∧ readCell g2.grid x y = some ALIVE)) ∧
        (∀ i j, ¬ (i = x ∧ j = y) → readCell g2.grid i j = readCell g.grid i j) ∧
        IsSquare g.N g2.grid ∧ g2.nextGrid = g.nextGrid ∧ g2.generation = g.generation ∧
        g2.N = g.N ∧ g2.cellSize = g.cellSize ∧ g2.margin = g.margin) := by
  constructor
  · intro hout
    unfold Game.toggleCell
    rw [if_pos hout]
  · intro hnot
    have hin : InGrid g.N x y := by
      unfold InGrid; omega
    obtain ⟨ng, h1, h2, h3⟩ := toggleCell_cells g x y hg
    obtain ⟨c, hc⟩ := readCell_isSome g.N g.grid x y hg hin
    have hcb := readCell_binary g.grid x y c hb hc
    refine ⟨_, c, h1, hc, ?_, ?_, h2, rfl, rfl, rfl, rfl, rfl⟩
    · simp only
      rw [h3 x y, hc]
      simp only [Option.map_some', hin, and_self, if_true]
      rcases hcb with rfl | rfl
      · exact Or.inl ⟨rfl, rfl⟩
      · exact Or.inr ⟨rfl, rfl⟩
    · intro i j hne
      simp only
      rw [h3 i j]
      cases readCell g.grid i j with
      | none => rfl
      | some v => simp [hne]

/-- Witness of C14: the centre cell of the 3 x 3 blinker state. -/
theorem C14_toggleCell_effect_witness :
    (((1 : Int) < 0 ∨ (1 : Int) < 0 ∨ (1 : Int) ≥ blinker3.N ∨ (1 : Int) ≥ blinker3.N) →
      blinker3.toggleCell 1 1 = some blinker3) ∧
    (¬ ((1 : Int) < 0 ∨ (1 : Int) < 0 ∨ (1 : Int) ≥ blinker3.N ∨ (1 : Int) ≥ blinker3.N) →
      ∃ g2 c, blinker3.toggleCell 1 1 = some g2 ∧ readCell blinker3.grid 1 1 = some c ∧
        ((c = ALIVE ∧ readCell g2.grid 1 1 = some DEAD) ∨
          (c = DEAD ∧ readCell g2.grid 1 1 = some ALIVE)) ∧
        (∀ i j, ¬ (i = 1 ∧ j = 1) → readCell g2.grid i j = readCell blinker3.grid i j) ∧
        IsSquare blinker3.N g2.grid ∧ g2.nextGrid = blinker3.nextGrid ∧
        g2.generation = blinker3.generation ∧
        g2.N = blinker3.N ∧ g2.cellSize = blinker3.cellSize ∧ g2.margin = blinker3.margin) :=
  C14_toggleCell_effect blinker3 1 1 (by decide) (by decide)

/-! ## Invariants of the three state-changing methods -/

/-- A square grid whose readable cells are all `ALIVE` or `DEAD` is binary. -/
theorem isBinary_of_cells (n : Int) (grid : List (List Int)) (hs : IsSquare n grid)
    (h : ∀ i j c, InGrid n i j → readCell grid i j = some c → c = ALIVE ∨ c = DEAD) :
    IsBinary grid := by
  obtain ⟨hlen, hrows⟩ := hs
  intro row hrow c hc
  obtain ⟨j, hj, rfl⟩ := List.mem_iff_getElem.mp hrow
  obtain ⟨i, hi, rfl⟩ := List.mem_iff_getElem.mp hc
  have hr := hrows _ hrow
  have hj0 : ¬ ((j : Int) < 0) := by omega
  have hi0 : ¬ ((i : Int) < 0) := by omega
  apply h (i : Int) (j : Int) _ ⟨by omega, by omega, by omega, by omega⟩
  simp [readCell, index, hj0, hi0, List.getElem?_eq_getElem hj, List.getElem?_eq_getElem hi]

theorem lifeRule_binary (c : Int) (n : Nat) : lifeRule c n = ALIVE ∨ lifeRule c n = DEAD := by
  unfold lifeRule
  split
  · exact Or.inl rfl
  · exact Or.inr rfl

/-- One `step` from square buffers and a binary current grid: both buffers of
the new state are square and binary. -/
theorem step_binary (g : Game) (hN : IsInt64 g.N) (hg : IsSquare g.N g.grid)
    (hn : IsSquare g.N g.nextGrid) (hb : IsBinary g.grid) :
    ∃ ng,
      g.step =
        some { g with grid := ng, nextGrid := g.grid, generation := wrapInt (g.generation + 1) } ∧
      IsSquare g.N ng ∧ IsBinary ng := by
  obtain ⟨ng, h1, h2, h3⟩ := step_spec g hN hg hn
  refine ⟨ng, h1, h2, isBinary_of_cells g.N ng h2 ?_⟩
  intro i j c hin hc
  obtain ⟨v, hv⟩ := readCell_isSome g.N g.grid i j hg hin
  have hvb := readCell_binary g.grid i j v hb hv
  rw [h3 i j hin, nextCellValue_binary g i j v hn hin hv hvb] at hc
  rw [← Option.some.inj hc]
  exact lifeRule_binary _ _

theorem iterate_toggleValue_binary (k : Nat) (c : Int) (hc : c = ALIVE ∨ c = DEAD) :
    Nat.iterate toggleValue k c = ALIVE ∨ Nat.iterate toggleValue k c = DEAD := by
  induction k generalizing c with
  | zero => exact hc
  | succ k ih =>
    rw [Function.iterate_succ_apply]
    exact ih _ (toggleValue_binary c)

theorem iterate_toggleValue_twice (k : Nat) (c : Int) (hc : c = ALIVE ∨ c = DEAD) :
    Nat.iterate toggleValue k (Nat.iterate toggleValue k c) = c := by
  induction k generalizing c with
  | zero => rfl
  | succ k ih =>
    rw [Function.iterate_succ_apply, Function.iterate_succ_apply',
      toggleValue_toggleValue _ (iterate_toggleValue_binary k c hc)]
    exact ih c hc

/-- A sequence of toggles keeps a binary grid binary. -/
theorem toggleAll_binary (cells : List (Int × Int)) (g : Game) (hg : IsSquare g.N g.grid)
    (hb : IsBinary g.grid) :
    ∃ ng, toggleAll g cells = some { g with grid := ng } ∧ IsSquare g.N ng ∧ IsBinary ng := by
  obtain ⟨ng, h1, h2, h3⟩ := toggleAll_spec cells g hg
  refine ⟨ng, h1, h2, isBinary_of_cells g.N ng h2 ?_⟩
  intro i j c hin hc
  obtain ⟨v, hv⟩ := readCell_isSome g.N g.grid i j hg hin
  have hvb := readCell_binary g.grid i j v hb hv
  rw [h3 i j, hv] at hc
  rw [← Option.some.inj hc]
  exact iterate_toggleValue_binary _ v hvb

/-- The same sequence of toggles applied twice to a binary grid gives back the
state. -/
theorem toggleAll_twice (cells : List (Int × Int)) (g : Game) (hg : IsSquare g.N g.grid)
    (hb : IsBinary g.grid) :
    ∃ g1, toggleAll g cells = some g1 ∧ g1.N = g.N ∧ g1.cellSize = g.cellSize ∧
      g1.margin = g.margin ∧ toggleAll g1 cells = some g := by
  obtain ⟨ng1, h1, hsq1, hc1⟩ := toggleAll_spec cells g hg
  obtain ⟨ng2, h2, hsq2, hc2⟩ := toggleAll_spec cells { g with grid := ng1 } hsq1
  refine ⟨_, h1, rfl, rfl, rfl, ?_⟩
  have hsame : ng2 = g.grid := by
    apply grid_ext g.N ng2 g.grid hsq2 hg
    intro i j hin
    obtain ⟨v, hv⟩ := readCell_isSome g.N g.grid i j hg hin
    have hvb := readCell_binary g.grid i j v hb hv
    rw [hc2 i j, hc1 i j, hv]
    simp only [Option.map_some']
    rw [iterate_toggleValue_twice _ v hvb]
  rw [h2, hsame]

theorem toggleCell_eq_toggleAll (g : Game) (x y : Int) :
    g.toggleCell x y = toggleAll g [(x, y)] := by
  unfold toggleAll
  rw [List.foldlM_cons]
  cases g.toggleCell x y <;> rfl

/-- With a non-zero `cellSize`, `interactAtPixel` is a sequence of toggles that
depends on `N`, `cellSize`, `margin` and the pixel only. -/
theorem interactAtPixel_as_toggles (g : Game) (px py : Int) (hcs : g.cellSize ≠ 0) :
    ∃ cells, ∀ s : Game, s.N = g.N → s.cellSize = g.cellSize → s.margin = g.margin →
      s.interactAtPixel px py = toggleAll s cells := by
  have hres : ∀ s : Game, s.N = g.N → s.cellSize = g.cellSize → s.margin = g.margin →
      resolveCell s px py = resolveCell g px py := by
    intro s h1 h2 h3
    unfold resolveCell
    rw [h1, h2, h3]
  cases hr : resolveCell g px py with
  | none =>
    exfalso
    unfold resolveCell Game.goDiv at hr
    split at hr
    · cases hr
    · simp only [if_neg hcs, Option.some_bind] at hr
      split at hr <;> cases hr
  | some r =>
    cases r with
    | none =>
      refine ⟨[], fun s h1 h2 h3 => ?_⟩
      rw [interactAtPixel_eq, hres s h1 h2 h3, hr]
      rfl
    | some c =>
      refine ⟨toggleTargets c.1 c.2, fun s h1 h2 h3 => ?_⟩
      rw [interactAtPixel_eq, hres s h1 h2 h3, hr]
      rfl

/-- Every call keeps the invariant: `N` in the `int` range, both buffers
square and binary, `cellSize` positive. -/
theorem call_invariant (g : Game) (c : Call)
    (h : IsInt64 g.N ∧ IsSquare g.N g.grid ∧ IsSquare g.N g.nextGrid ∧ IsBinary g.grid ∧
      IsBinary g.nextGrid ∧ 0 < g.cellSize) :
    ∃ g2, g.call c = some g2 ∧ IsInt64 g2.N ∧ IsSquare g2.N g2.grid ∧
      IsSquare g2.N g2.nextGrid ∧ IsBinary g2.grid ∧ IsBinary g2.nextGrid ∧ 0 < g2.cellSize := by
  obtain ⟨hN, hg, hn, hb, hbn, hcs⟩ := h
  cases c with
  | step =>
    obtain ⟨ng, h1, h2, h3⟩ := step_binary g hN hg hn hb
    exact ⟨_, h1, hN, h2, hg, h3, hb, hcs⟩
  | toggleCell x y =>
    obtain ⟨ng, h1, h2, h3⟩ := toggleAll_binary [(x, y)] g hg hb
    exact ⟨{ g with grid := ng }, by rw [Game.call, toggleCell_eq_toggleAll]; exact h1,
      hN, h2, hn, h3, hbn, hcs⟩
  | interactAtPixel px py =>
    obtain ⟨cells, hcells⟩ := interactAtPixel_as_toggles g px py (by omega)
    obtain ⟨ng, h1, h2, h3⟩ := toggleAll_binary cells g hg hb
    exact ⟨{ g with grid := ng }, by rw [Game.call, hcells g rfl rfl rfl]; exact h1,
      hN, h2, hn, h3, hbn, hcs⟩

/-! ## The two-state invariant on buffers of any shape -/

/-- A loop over a list keeps an invariant of the state whenever it runs to its
end. -/
theorem foldlM_list_preserves {σ α : Type} (f : σ → α → Option σ) (P : σ → Prop)
    (hstep : ∀ s a s2, P s → f s a = some s2 → P s2) (l : List α) :
    ∀ s s2, P s → l.foldlM f s = some s2 → P s2 := by
  induction l with
  | nil =>
    intro s s2 hs h
    cases h
    exact hs
  | cons a l ih =>
    intro s s2 hs h
    rw [List.foldlM_cons] at h
    cases hf : f s a with
    | none => rw [hf] at h; cases h
    | some s1 =>
      rw [hf] at h
      exact ih s1 s2 (hstep s a s1 hs hf) h

/-- A store of `ALIVE` or `DEAD` into a binary grid of any shape leaves a
binary grid. -/
theorem writeCell_binary (grid ng : List (List Int)) (x y v : Int)
    (h : writeCell grid x y v = some ng) (hb : IsBinary grid) (hv : v = ALIVE ∨ v = DEAD) :
    IsBinary ng := by
  unfold writeCell at h
  cases hrow : index grid y with
  | none => rw [hrow] at h; cases h
  | some row =>
    rw [hrow] at h
    simp only [Option.some_bind] at h
    have hrowb := hb row (index_mem grid y row hrow)
    unfold assign at h
    split at h
    · simp only [Option.some_bind] at h
      split at h
      · cases h
        intro r hr c hc
        rcases List.mem_or_eq_of_mem_set hr with hr2 | hr2
        · exact hb r hr2 c hc
        · subst hr2
          rcases List.mem_or_eq_of_mem_set hc with hc2 | hc2
          · exact hrowb c hc2
          · subst hc2; exact hv
      · cases h
    · cases h

/-- One visit of the scan, when it returns, leaves the current grid alone and
keeps the scratch grid binary. -/
theorem stepCell_binary (s s2 : Game) (x y : Int) (h : s.stepCell x y = some s2) :
    s2.grid = s.grid ∧ (IsBinary s.nextGrid → IsBinary s2.nextGrid) := by
  have hw : ∀ v : Int, (v = ALIVE ∨ v = DEAD) →
      (writeCell s.nextGrid x y v).map (fun ng => { s with nextGrid := ng }) = some s2 →
      s2.grid = s.grid ∧ (IsBinary s.nextGrid → IsBinary s2.nextGrid) := by
    intro v hv hm
    cases hwc : writeCell s.nextGrid x y v with
    | none => rw [hwc] at hm; cases hm
    | some ng =>
      rw [hwc] at hm
      cases hm
      exact ⟨rfl, fun hbn => writeCell_binary _ _ x y v hwc hbn hv⟩
  unfold Game.stepCell at h
  cases hc : s.countAliveNeighbors x y with
  | none => rw [hc] at h; cases h
  | some n =>
    cases hr : readCell s.grid x y with
    | none => rw [hc, hr] at h; cases h
    | some cell =>
      rw [hc, hr] at h
      simp only [Option.some_bind] at h
      split at h
      · split at h
        · exact hw DEAD (Or.inr rfl) h
        · exact hw ALIVE (Or.inl rfl) h
      · split at h
        · split at h
          · exact hw ALIVE (Or.inl rfl) h
          · exact hw DEAD (Or.inr rfl) h
        · cases h
          exact ⟨rfl, fun hbn => hbn⟩

/-- Method `step`, when it returns, leaves two binary buffers binary. -/
theorem step_binary_of_some (g g2 : Game) (h : g.step = some g2) (hb : IsBinary g.grid)
    (hbn : IsBinary g.nextGrid) : IsBinary g2.grid ∧ IsBinary g2.nextGrid := by
  unfold Game.step at h
  cases hs : g.stepScan with
  | none => rw [hs] at h; cases h
  | some s =>
    rw [hs] at h
    cases h
    have hcell : ∀ (t : Game) (x : Nat) (y : Int) (t2 : Game),
        IsBinary t.grid ∧ IsBinary t.nextGrid → t.stepCell (x : Int) y = some t2 →
        IsBinary t2.grid ∧ IsBinary t2.nextGrid := by
      intro t x y t2 ht h2
      obtain ⟨h3, h4⟩ := stepCell_binary t t2 x y h2
      exact ⟨by rw [h3]; exact ht.1, h4 ht.2⟩
    have hrow : ∀ (t : Game) (y : Nat) (t2 : Game),
        IsBinary t.grid ∧ IsBinary t.nextGrid → t.stepRow (y : Int) = some t2 →
        IsBinary t2.grid ∧ IsBinary t2.nextGrid := by
      intro t y t2 ht h2
      exact foldlM_list_preserves (fun (u : Game) (x : Nat) => u.stepCell (x : Int) (y : Int))
        (fun u => IsBinary u.grid ∧ IsBinary u.nextGrid)
        (fun u x u2 hu hu2 => hcell u x y u2 hu hu2) _ t t2 ht h2
    have hscan := foldlM_list_preserves (fun (u : Game) (y : Nat) => u.stepRow (y : Int))
      (fun u => IsBinary u.grid ∧ IsBinary u.nextGrid) hrow _ g s ⟨hb, hbn⟩ hs
    exact ⟨hscan.2, hscan.1⟩

/-- Method `toggleCell`, when it returns, leaves a binary current grid binary
and the scratch grid alone. -/
theorem toggleCell_binary_of_some (g g2 : Game) (x y : Int) (h : g.toggleCell x y = some g2)
    (hb : IsBinary g.grid) : IsBinary g2.grid ∧ g2.nextGrid = g.nextGrid := by
  have hw : ∀ v : Int, (v = ALIVE ∨ v = DEAD) →
      (writeCell g.grid x y v).map (fun ng => { g with grid := ng }) = some g2 →
      IsBinary g2.grid ∧ g2.nextGrid = g.nextGrid := by
    intro v hv hm
    cases hwc : writeCell g.grid x y v with
    | none => rw [hwc] at hm; cases hm
    | some ng =>
      rw [hwc] at hm
      cases hm
      exact ⟨writeCell_binary _ _ x y v hwc hb hv, rfl⟩
  unfold Game.toggleCell at h
  split at h
  · cases h
    exact ⟨hb, rfl⟩
  · cases hr : readCell g.grid x y with
    | none => rw [hr] at h; cases h
    | some c =>
      rw [hr] at h
      simp only [Option.some_bind] at h
      split at h
      · exact hw DEAD (Or.inr rfl) h
      · exact hw ALIVE (Or.inl rfl) h

/-- Method `interactAtPixel`, when it returns, leaves a binary current grid
binary and the scratch grid alone. -/
theorem interactAtPixel_binary_of_some (g g2 : Game) (px py : Int)
    (h : g.interactAtPixel px py = some g2) (hb : IsBinary g.grid) :
    IsBinary g2.grid ∧ g2.nextGrid = g.nextGrid := by
  rw [interactAtPixel_eq] at h
  cases hr : resolveCell g px py with
  | none => rw [hr] at h; cases h
  | some r =>
    rw [hr] at h
    cases r with
    | none =>
      cases h
      exact ⟨hb, rfl⟩
    | some c =>
      exact foldlM_list_preserves (fun (s : Game) (p : Int × Int) => s.toggleCell p.1 p.2)
        (fun s => IsBinary s.grid ∧ s.nextGrid = g.nextGrid)
        (fun s p s2 hs hs2 => by
          obtain ⟨h1, h2⟩ := toggleCell_binary_of_some s s2 p.1 p.2 hs2 hs.1
          exact ⟨h1, by rw [h2]; exact hs.2⟩)
        (toggleTargets c.1 c.2) g g2 ⟨hb, rfl⟩ h

/-- Every call that returns leaves two binary buffers binary. -/
theorem call_binary_of_some (g g2 : Game) (c : Call) (h : g.call c = some g2)
    (hb : IsBinary g.grid ∧ IsBinary g.nextGrid) : IsBinary g2.grid ∧ IsBinary g2.nextGrid := by
  cases c with
  | step => exact step_binary_of_some g g2 h hb.1 hb.2
  | toggleCell x y =>
    obtain ⟨h1, h2⟩ := toggleCell_binary_of_some g g2 x y h hb.1
    exact ⟨h1, by rw [h2]; exact hb.2⟩
  | interactAtPixel px py =>
    obtain ⟨h1, h2⟩ := interactAtPixel_binary_of_some g g2 px py h hb.1
    exact ⟨h1, by rw [h2]; exact hb.2⟩

/-- On a square current grid `countAliveNeighbors` returns for every pair of
arguments: a read follows the guard only. -/
theorem countAliveNeighbors_returns (g : Game) (x y : Int) (hg : IsSquare g.N g.grid) :
    ∃ n, g.countAliveNeighbors x y = some n := by
  have hvisit : ∀ dx dy count : Int, ∃ n, g.neighborVisit x y dx dy count = some n := by
    intro dx dy count
    unfold Game.neighborVisit
    simp only
    split
    · exact ⟨_, rfl⟩
    · rename_i hguard
      split
      · exact ⟨_, rfl⟩
      · obtain ⟨c, hc⟩ := readCell_isSome g.N g.grid (wrapInt (x + dx)) (wrapInt (y + dy)) hg
          ⟨by omega, by omega, by omega, by omega⟩
        rw [hc]
        simp only [Option.some_bind]
        split
        · exact ⟨_, rfl⟩
        · exact ⟨_, rfl⟩
  unfold Game.countAliveNeighbors
  obtain ⟨n, hn, _⟩ := foldlM_list_invariant
    (fun (count : Int) (dy : Int) =>
      [-1, 0, 1].foldlM (fun count dx => g.neighborVisit x y dx dy count) count)
    (fun _ => True)
    (fun count dy _ => foldlM_list_invariant _ (fun _ => True)
      (fun c dx _ => by
        obtain ⟨n, hn⟩ := hvisit dx dy c
        exact ⟨n, hn, trivial⟩) _ count trivial)
    [-1, 0, 1] 0 trivial
  exact ⟨n, hn⟩

/-! ## The claims on invariants, failures, layout and click mapping -/

/-- C15: on a state whose two buffers hold only `ALIVE` and `DEAD`, whatever
their shape: the state `step` returns, the state `toggleCell x y` returns for
every `(x, y)`, the state `interactAtPixel px py` returns for every `(px, py)`,
and the state every sequence of these calls returns, have two buffers that
hold only `ALIVE` and `DEAD`.  When the two buffers are `N` x `N`, `step` and
`toggleCell` do return, and with `cellSize > 0` so do `interactAtPixel` and
every sequence of calls. -/
theorem C15_two_state_invariant (g : Game) (hb : IsBinary g.grid) (hbn : IsBinary g.nextGrid) :
    (∀ g2, g.step = some g2 → IsBinary g2.grid ∧ IsBinary g2.nextGrid) ∧
    (∀ x y g2, g.toggleCell x y = some g2 → IsBinary g2.grid ∧ IsBinary g2.nextGrid) ∧
    (∀ px py g2, g.interactAtPixel px py = some g2 →
      IsBinary g2.grid ∧ IsBinary g2.nextGrid) ∧
    (∀ cs g2, g.calls cs = some g2 → IsBinary g2.grid ∧ IsBinary g2.nextGrid) ∧
    (IsInt64 g.N → IsSquare g.N g.grid → IsSquare g.N g.nextGrid →
      (∃ g2, g.step = some g2) ∧ (∀ x y, ∃ g2, g.toggleCell x y = some g2) ∧
      (0 < g.cellSize → (∀ px py, ∃ g2, g.interactAtPixel px py = some g2) ∧
        ∀ cs, ∃ g2, g.calls cs = some g2)) := by
  refine ⟨?_, ?_, ?_, ?_, ?_⟩
  · intro g2 h
    exact step_binary_of_some g g2 h hb hbn
  · intro x y g2 h
    exact call_binary_of_some g g2 (Call.toggleCell x y) h ⟨hb, hbn⟩
  · intro px py g2 h
    exact call_binary_of_some g g2 (Call.interactAtPixel px py) h ⟨hb, hbn⟩
  · intro cs g2 h
    exact foldlM_list_preserves (fun (s : Game) (c : Call) => s.call c)
      (fun s => IsBinary s.grid ∧ IsBinary s.nextGrid)
      (fun s c s2 hs hs2 => call_binary_of_some s s2 c hs2 hs) cs g g2 ⟨hb, hbn⟩ h
  · intro hN hg hn
    refine ⟨?_, ?_, ?_⟩
    · obtain ⟨ng, h1, _⟩ := step_spec g hN hg hn
      exact ⟨_, h1⟩
    · intro x y
      obtain ⟨ng, h1, _⟩ := toggleCell_spec g x y hg
      exact ⟨_, h1⟩
    · intro hcs
      constructor
      · intro px py
        obtain ⟨ng, h1, _⟩ := interactAtPixel_frame g px py hg (by omega)
        exact ⟨_, h1⟩
      · intro cs
        obtain ⟨g2, h1, _⟩ := foldlM_list_invariant
          (fun (s : Game) (c : Call) => s.call c)
          (fun s => IsInt64 s.N ∧ IsSquare s.N s.grid ∧ IsSquare s.N s.nextGrid ∧
            IsBinary s.grid ∧ IsBinary s.nextGrid ∧ 0 < s.cellSize)
          (fun s c hs => call_invariant s c hs) cs g ⟨hN, hg, hn, hb, hbn, hcs⟩
        exact ⟨g2, h1⟩

/-- Witness of C15 on the 3 x 3 blinker state: a step, a toggle, a click and a
sequence of four calls. -/
theorem C15_two_state_invariant_witness :
    (∃ g2, blinker3.step = some g2 ∧ IsBinary g2.grid ∧ IsBinary g2.nextGrid) ∧
    (∃ g2, blinker3.toggleCell 1 1 = some g2 ∧ IsBinary g2.grid ∧ IsBinary g2.nextGrid) ∧
    (∃ g2, blinker3.interactAtPixel 5 45 = some g2 ∧ IsBinary g2.grid ∧ IsBinary g2.nextGrid) ∧
    (∃ g2, blinker3.calls [Call.step, Call.toggleCell 1 1, Call.interactAtPixel 5 45, Call.step]
      = some g2 ∧ IsBinary g2.grid ∧ IsBinary g2.nextGrid) := by
  obtain ⟨h1, h2, h3, h4, h5⟩ := C15_two_state_invariant blinker3 (by decide) (by decide)
  obtain ⟨⟨a, ha⟩, r2, r3⟩ := h5 (by decide) (by decide) (by decide)
  obtain ⟨b, hb⟩ := r2 1 1
  obtain ⟨r4, r5⟩ := r3 (by decide)
  obtain ⟨c, hc⟩ := r4 5 45
  obtain ⟨d, hd⟩ := r5 [Call.step, Call.toggleCell 1 1, Call.interactAtPixel 5 45, Call.step]
  exact ⟨⟨a, ha, h1 a ha⟩, ⟨b, hb, h2 1 1 b hb⟩, ⟨c, hc, h3 5 45 c hc⟩, ⟨d, hd, h4 _ d hd⟩⟩

/-- C16: on a state whose two buffers are `N` x `N`: `step` and `toggleCell x y`,
for every `(x, y)`, return a state whose two buffers are `N` x `N` and whose
field `N` is the same, and so does `interactAtPixel px py`, for every
`(px, py)`, when `cellSize > 0`. -/
theorem C16_shape_invariant (g : Game) (x y px py : Int) (hN : IsInt64 g.N)
    (hg : IsSquare g.N g.grid) (hn : IsSquare g.N g.nextGrid) :
    (∃ g2, g.step = some g2 ∧ IsSquare g.N g2.grid ∧ IsSquare g.N g2.nextGrid ∧ g2.N = g.N) ∧
    (∃ g2, g.toggleCell x y = some g2 ∧ IsSquare g.N g2.grid ∧ IsSquare g.N g2.nextGrid ∧
      g2.N = g.N) ∧
    (0 < g.cellSize → ∃ g2, g.interactAtPixel px py = some g2 ∧ IsSquare g.N g2.grid ∧
      IsSquare g.N g2.nextGrid ∧ g2.N = g.N) := by
  refine ⟨?_, ?_, ?_⟩
  · obtain ⟨ng, h1, h2, _⟩ := step_spec g hN hg hn
    exact ⟨_, h1, h2, hg, rfl⟩
  · obtain ⟨ng, h1, h2, _⟩ := toggleCell_spec g x y hg
    exact ⟨_, h1, h2, hn, rfl⟩
  · intro hcs
    obtain ⟨ng, h1, h2⟩ := interactAtPixel_frame g px py hg (by omega)
    exact ⟨_, h1, h2, hn, rfl⟩

/-- Witness of C16 on the 3 x 3 blinker state. -/
theorem C16_shape_invariant_witness :
    (∃ g2, blinker3.step = some g2 ∧ IsSquare blinker3.N g2.grid ∧
      IsSquare blinker3.N g2.nextGrid ∧ g2.N = blinker3.N) ∧
    (∃ g2, blinker3.toggleCell 1 1 = some g2 ∧ IsSquare blinker3.N g2.grid ∧
      IsSquare blinker3.N g2.nextGrid ∧ g2.N = blinker3.N) ∧
    (∃ g2, blinker3.interactAtPixel 5 45 = some g2 ∧ IsSquare blinker3.N g2.grid ∧
      IsSquare blinker3.N g2.nextGrid ∧ g2.N = blinker3.N) := by
  obtain ⟨h1, h2, h3⟩ :=
    C16_shape_invariant blinker3 1 1 5 45 (by decide) (by decide) (by decide)
  exact ⟨h1, h2, h3 (by decide)⟩

/-- C17: on a state whose two buffers are `N` x `N`, none of the four methods
stops on an index out of range: `countAliveNeighbors x y` returns for every
pair of integers, in the grid or not, `step` returns, `toggleCell tx ty`
returns for every pair of integers, and `interactAtPixel px py` returns for
every pixel when `cellSize` is not zero.  With `cellSize` zero a click below
the header stops on the division. -/
theorem C17_no_failure (g : Game) (x y tx ty px py : Int) (hN : IsInt64 g.N)
    (hg : IsSquare g.N g.grid) (hn : IsSquare g.N g.nextGrid) :
    (∃ n, g.countAliveNeighbors x y = some n) ∧ (∃ g2, g.step = some g2) ∧
    (∃ g2, g.toggleCell tx ty = some g2) ∧
    (g.cellSize ≠ 0 → ∃ g2, g.interactAtPixel px py = some g2) ∧
    (g.cellSize = 0 → g.margin ≤ py → g.interactAtPixel px py = none) := by
  refine ⟨countAliveNeighbors_returns g x y hg, ?_, ?_, ?_, ?_⟩
  · obtain ⟨ng, h1, _⟩ := step_spec g hN hg hn
    exact ⟨_, h1⟩
  · obtain ⟨ng, h1, _⟩ := toggleCell_spec g tx ty hg
    exact ⟨_, h1⟩
  · intro hcs
    obtain ⟨ng, h1, _⟩ := interactAtPixel_frame g px py hg hcs
    exact ⟨_, h1⟩
  · intro hcs hpy
    unfold Game.interactAtPixel Game.goDiv
    rw [if_neg (by omega), if_pos hcs]
    rfl

/-- Witness of C17: calls with arguments outside the 3 x 3 grid. -/
theorem C17_no_failure_witness :
    (∃ n, blinker3.countAliveNeighbors (-7) 100 = some n) ∧ (∃ g2, blinker3.step = some g2) ∧
    (∃ g2, blinker3.toggleCell 3 (-1) = some g2) ∧
    (∃ g2, blinker3.interactAtPixel (-500) 4000 = some g2) := by
  obtain ⟨h1, h2, h3, h4, _⟩ :=
    C17_no_failure blinker3 (-7) 100 3 (-1) (-500) 4000 (by decide) (by decide) (by decide)
  exact ⟨h1, h2, h3, h4 (by decide)⟩

/-- C18: for every state and every pair of arguments, `Layout` returns the same
pair, whose components are the `int` values of `g.N * g.cellSize` and of
`g.N*g.cellSize + g.margin`; they are the mathematical product and sum when
these lie in the `int` range.  `Layout` is a function of the state with the
pair as its only output: its body stores nothing. -/
theorem C18_layout (g : Game) (w h w2 h2 : Int) :
    g.Layout w h = g.Layout w2 h2 ∧
    g.Layout w h =
      (wrapInt (g.N * g.cellSize), wrapInt (wrapInt (g.N * g.cellSize) + g.margin)) ∧
    (IsInt64 (g.N * g.cellSize) → IsInt64 (g.N * g.cellSize + g.margin) →
      g.Layout w h = (g.N * g.cellSize, g.N * g.cellSize + g.margin)) := by
  refine ⟨rfl, rfl, ?_⟩
  intro h1 h2
  unfold Game.Layout
  rw [wrapInt_eq _ h1, wrapInt_eq _ h2]

/-- Witness of C18: the layout of the 3 x 3 blinker state is 36 by 76. -/
theorem C18_layout_witness :
    blinker3.Layout 640 480 = blinker3.Layout 0 0 ∧
    blinker3.Layout 640 480 =
      (wrapInt (blinker3.N * blinker3.cellSize),
        wrapInt (wrapInt (blinker3.N * blinker3.cellSize) + blinker3.margin)) ∧
    blinker3.Layout 640 480 = (36, 76) := by
  obtain ⟨h1, h2, h3⟩ := C18_layout blinker3 640 480 0 0
  exact ⟨h1, h2, h3 (by decide) (by decide)⟩

/-- C19: on a state whose `N` x `N` current grid holds only `ALIVE` and `DEAD`,
`toggleCell x y` called twice gives back the state, and so does
`interactAtPixel px py` called twice when `cellSize > 0`. -/
theorem C19_toggle_involution (g : Game) (x y px py : Int) (hg : IsSquare g.N g.grid)
    (hb : IsBinary g.grid) :
    (∃ g1, g.toggleCell x y = some g1 ∧ g1.toggleCell x y = some g) ∧
    (0 < g.cellSize →
      ∃ g1, g.interactAtPixel px py = some g1 ∧ g1.interactAtPixel px py = some g) := by
  constructor
  · obtain ⟨g1, h1, _, _, _, h2⟩ := toggleAll_twice [(x, y)] g hg hb
    exact ⟨g1, by rw [toggleCell_eq_toggleAll]; exact h1,
      by rw [toggleCell_eq_toggleAll]; exact h2⟩
  · intro hcs
    obtain ⟨cells, hcells⟩ := interactAtPixel_as_toggles g px py (by omega)
    obtain ⟨g1, h1, hN1, hc1, hm1, h2⟩ := toggleAll_twice cells g hg hb
    exact ⟨g1, by rw [hcells g rfl rfl rfl]; exact h1,
      by rw [hcells g1 hN1 hc1 hm1]; exact h2⟩

/-- Witness of C19: the centre cell and a click in the middle of the 3 x 3
blinker state. -/
theorem C19_toggle_involution_witness :
    (∃ g1, blinker3.toggleCell 1 1 = some g1 ∧ g1.toggleCell 1 1 = some blinker3) ∧
    (∃ g1, blinker3.interactAtPixel 17 57 = some g1 ∧
      g1.interactAtPixel 17 57 = some blinker3) := by
  obtain ⟨h1, h2⟩ := C19_toggle_involution blinker3 1 1 17 57 (by decide) (by decide)
  exact ⟨h1, h2 (by decide)⟩

/-- C20: with `cellSize > 0` and `margin ≥ 0`, for a cell `(x, y)` of the grid
and offsets `0 ≤ i, j < cellSize`, the pixel
`(x * cellSize + i, y * cellSize + margin + j)`, a pair of Go integers, lies at
the offset `(i, j)` from the position `Draw` gives the cell; both quotients
are the cell coordinates, mathematically and as `interactAtPixel` computes
them; the pixel passes both early returns and resolves to `(x, y)`, so that
`interactAtPixel` is the nine toggles around `(x, y)`. -/
theorem C20_click_inverts_draw (g : Game) (x y i j : Int) (hcs : 0 < g.cellSize)
    (hm : 0 ≤ g.margin) (hin : InGrid g.N x y) (hi : 0 ≤ i ∧ i < g.cellSize)
    (hj : 0 ≤ j ∧ j < g.cellSize) (hpx : IsInt64 (x * g.cellSize + i))
    (hpy : IsInt64 (y * g.cellSize + g.margin + j)) :
    (x * g.cellSize + i, y * g.cellSize + g.margin + j) =
      ((drawOrigin g x y).1 + i, (drawOrigin g x y).2 + j) ∧
    (x * g.cellSize + i) / g.cellSize = x ∧
    (y * g.cellSize + g.margin + j - g.margin) / g.cellSize = y ∧
    Game.goDiv (x * g.cellSize + i) g.cellSize = some x ∧
    Game.goDiv (wrapInt (y * g.cellSize + g.margin + j - g.margin)) g.cellSize = some y ∧
    resolveCell g (x * g.cellSize + i) (y * g.cellSize + g.margin + j) = some (some (x, y)) ∧
    g.interactAtPixel (x * g.cellSize + i) (y * g.cellSize + g.margin + j) =
      toggleAll g (toggleTargets x y) := by
  obtain ⟨hx0, hx1, hy0, hy1⟩ := hin
  obtain ⟨hpx0, hpx1⟩ := hpx
  obtain ⟨hpy0, hpy1⟩ := hpy
  have hxc : 0 ≤ x * g.cellSize := mul_nonneg hx0 (le_of_lt hcs)
  have hyc : 0 ≤ y * g.cellSize := mul_nonneg hy0 (le_of_lt hcs)
  have hne : g.cellSize ≠ 0 := by omega
  have hqx : (x * g.cellSize + i) / g.cellSize = x := by
    rw [add_comm, Int.add_mul_ediv_right i x hne, Int.ediv_eq_zero_of_lt hi.1 hi.2, zero_add]
  have hdiff : y * g.cellSize + g.margin + j - g.margin = y * g.cellSize + j := by omega
  have hqy : (y * g.cellSize + j) / g.cellSize = y := by
    rw [add_comm, Int.add_mul_ediv_right j y hne, Int.ediv_eq_zero_of_lt hj.1 hj.2, zero_add]
  have hgx : Game.goDiv (x * g.cellSize + i) g.cellSize = some x := by
    rw [goDiv_nonneg _ _ (by omega) hpx1 hcs, hqx]
  have hgy : Game.goDiv (wrapInt (y * g.cellSize + g.margin + j - g.margin)) g.cellSize
      = some y := by
    rw [hdiff, wrapInt_eq _ ⟨by omega, by omega⟩, goDiv_nonneg _ _ (by omega) (by omega) hcs, hqy]
  have hres := resolveCell_of_goDiv g _ _ x y (by omega) hgx hgy ⟨hx0, hx1, hy0, hy1⟩
  refine ⟨?_, hqx, by rw [hdiff]; exact hqy, hgx, hgy, hres, ?_⟩
  · unfold drawOrigin
    simp only
    rw [wrapInt_eq _ ⟨by omega, by omega⟩, wrapInt_eq (y * g.cellSize) ⟨by omega, by omega⟩,
      wrapInt_eq _ ⟨by omega, by omega⟩]
  · rw [interactAtPixel_eq, hres]
    rfl

/-- Witness of C20: the pixel at the offset `(5, 11)` in the cell `(1, 2)` of
the 3 x 3 blinker state. -/
theorem C20_click_inverts_draw_witness :
    (1 * blinker3.cellSize + 5, 2 * blinker3.cellSize + blinker3.margin + 11) =
      ((drawOrigin blinker3 1 2).1 + 5, (drawOrigin blinker3 1 2).2 + 11) ∧
    (1 * blinker3.cellSize + 5) / blinker3.cellSize = 1 ∧
    (2 * blinker3.cellSize + blinker3.margin + 11 - blinker3.margin) / blinker3.cellSize = 2 ∧
    Game.goDiv (1 * blinker3.cellSize + 5) blinker3.cellSize = some 1 ∧
    Game.goDiv (wrapInt (2 * blinker3.cellSize + blinker3.margin + 11 - blinker3.margin))
      blinker3.cellSize = some 2 ∧
    resolveCell blinker3 (1 * blinker3.cellSize + 5)
      (2 * blinker3.cellSize + blinker3.margin + 11) = some (some (1, 2)) ∧
    blinker3.interactAtPixel (1 * blinker3.cellSize + 5)
      (2 * blinker3.cellSize + blinker3.margin + 11) = toggleAll blinker3 (toggleTargets 1 2) :=
  C20_click_inverts_draw blinker3 1 2 5 11 (by decide) (by decide) (by decide) (by decide)
    (by decide) (by decide) (by decide)

end GomeOfLife
